import Mathlib

/-! Verification development for the metrics summary, the bundle manifest
reader and the JIT memory-kind list.

Embedded sources:

* `src/coreclr/tools/superpmi/superpmi/metricssummary.cpp`
  (`MetricsSummary::SaveToFile`, `MetricsSummary::LoadFromFile`,
  `MetricsSummary::AggregateFrom`);
* `src/installer/corehost/cli/bundle/manifest.cpp` (`manifest_t::read`);
* `src/coreclr/jit/compmemkind.h` (the `CompMemKindMacro` list).

Machine integers are mathematical integers (`Int`) reduced explicitly to the
two's-complement range of their width.  Text is a list of characters, one
character per byte of the file.
-/

/-! ## Fixed-width integers -/

/-- Value of `x` reduced to the range of a signed 32-bit `int`. -/
def toInt32 (x : Int) : Int := (x + 2147483648) % 4294967296 - 2147483648

/-- Value of `x` reduced to the range of a signed 64-bit `long long`. -/
def toInt64 (x : Int) : Int :=
  (x + 9223372036854775808) % 18446744073709551616 - 9223372036854775808

/-- Membership in the range of a signed 32-bit `int`. -/
def fitsInt32 (x : Int) : Prop := -2147483648 ≤ x ∧ x ≤ 2147483647

/-- Membership in the range of a signed 64-bit `long long`. -/
def fitsInt64 (x : Int) : Prop := -9223372036854775808 ≤ x ∧ x ≤ 9223372036854775807

instance (x : Int) : Decidable (fitsInt32 x) := by unfold fitsInt32; infer_instance

instance (x : Int) : Decidable (fitsInt64 x) := by unfold fitsInt64; infer_instance

/-! ## `MetricsSummary` -/

/-- The thirteen counters of `MetricsSummary`, in the order in which
`SaveToFile` prints them and `AggregateFrom` adds them.  The five compile
counts are printed with `%d` (`int`), the eight byte and instruction counters
with `%lld` (`long long`). -/
structure MetricsSummary where
  SuccessfulCompiles : Int
  SuccessfulTier0Compiles : Int
  SuccessfulTier1Compiles : Int
  FailingCompiles : Int
  MissingCompiles : Int
  NumCodeBytes : Int
  NumDiffedCodeBytes : Int
  NumExecutedInstructions : Int
  NumTier0ExecutedInstructions : Int
  NumTier1ExecutedInstructions : Int
  NumDiffExecutedInstructions : Int
  NumTier0DiffExecutedInstructions : Int
  NumTier1DiffExecutedInstructions : Int
  deriving DecidableEq, Repr

namespace MetricsSummary

/-- A summary all of whose counters are zero (a fresh summary). -/
def zero : MetricsSummary :=
  { SuccessfulCompiles := 0, SuccessfulTier0Compiles := 0, SuccessfulTier1Compiles := 0,
    FailingCompiles := 0, MissingCompiles := 0, NumCodeBytes := 0, NumDiffedCodeBytes := 0,
    NumExecutedInstructions := 0, NumTier0ExecutedInstructions := 0,
    NumTier1ExecutedInstructions := 0, NumDiffExecutedInstructions := 0,
    NumTier0DiffExecutedInstructions := 0, NumTier1DiffExecutedInstructions := 0 }

/-- Every counter holds a value of its C++ type: the compile counts are `int`,
the other counters `long long`. -/
def Valid (s : MetricsSummary) : Prop :=
  fitsInt32 s.SuccessfulCompiles ∧ fitsInt32 s.SuccessfulTier0Compiles ∧
  fitsInt32 s.SuccessfulTier1Compiles ∧ fitsInt32 s.FailingCompiles ∧
  fitsInt32 s.MissingCompiles ∧ fitsInt64 s.NumCodeBytes ∧ fitsInt64 s.NumDiffedCodeBytes ∧
  fitsInt64 s.NumExecutedInstructions ∧ fitsInt64 s.NumTier0ExecutedInstructions ∧
  fitsInt64 s.NumTier1ExecutedInstructions ∧ fitsInt64 s.NumDiffExecutedInstructions ∧
  fitsInt64 s.NumTier0DiffExecutedInstructions ∧ fitsInt64 s.NumTier1DiffExecutedInstructions

instance (s : MetricsSummary) : Decidable s.Valid := by unfold Valid; infer_instance

/-- `MetricsSummary::AggregateFrom`: thirteen `+=` statements, one per field.
The first argument is `*this` before the call, the result is `*this` after
it; `other` is a `const&` and is not written.  Each sum is kept in the width
of its field. -/
def AggregateFrom (self other : MetricsSummary) : MetricsSummary :=
  { SuccessfulCompiles := toInt32 (self.SuccessfulCompiles + other.SuccessfulCompiles)
    SuccessfulTier0Compiles :=
      toInt32 (self.SuccessfulTier0Compiles + other.SuccessfulTier0Compiles)
    SuccessfulTier1Compiles :=
      toInt32 (self.SuccessfulTier1Compiles + other.SuccessfulTier1Compiles)
    FailingCompiles := toInt32 (self.FailingCompiles + other.FailingCompiles)
    MissingCompiles := toInt32 (self.MissingCompiles + other.MissingCompiles)
    NumCodeBytes := toInt64 (self.NumCodeBytes + other.NumCodeBytes)
    NumDiffedCodeBytes := toInt64 (self.NumDiffedCodeBytes + other.NumDiffedCodeBytes)
    NumExecutedInstructions :=
      toInt64 (self.NumExecutedInstructions + other.NumExecutedInstructions)
    NumTier0ExecutedInstructions :=
      toInt64 (self.NumTier0ExecutedInstructions + other.NumTier0ExecutedInstructions)
    NumTier1ExecutedInstructions :=
      toInt64 (self.NumTier1ExecutedInstructions + other.NumTier1ExecutedInstructions)
    NumDiffExecutedInstructions :=
      toInt64 (self.NumDiffExecutedInstructions + other.NumDiffExecutedInstructions)
    NumTier0DiffExecutedInstructions :=
      toInt64 (self.NumTier0DiffExecutedInstructions + other.NumTier0DiffExecutedInstructions)
    NumTier1DiffExecutedInstructions :=
      toInt64 (self.NumTier1DiffExecutedInstructions + other.NumTier1DiffExecutedInstructions) }

/-- The summary of the spec's second end-to-end scenario: 10 successful, 1
failing and 0 missing compiles, 2048 code bytes, 500000 executed instructions,
every other counter zero. -/
def scenario : MetricsSummary :=
  { zero with
    SuccessfulCompiles := 10, FailingCompiles := 1, NumCodeBytes := 2048,
    NumExecutedInstructions := 500000 }

/-- A summary whose only non-zero counter is `NumExecutedInstructions`. -/
def executed (n : Int) : MetricsSummary := { zero with NumExecutedInstructions := n }

/-- The call `self.AggregateFrom(other)` as a step on the pair of objects
(`*this`, `other`): the first is replaced by the sums, the second is only read. -/
def AggregateFromStep (objs : MetricsSummary × MetricsSummary) :
    MetricsSummary × MetricsSummary :=
  (AggregateFrom objs.1 objs.2, objs.2)

/-- The spec's `combine(x, y)`: a copy of `x` after `AggregateFrom(y)`. -/
def combine (x y : MetricsSummary) : MetricsSummary :=
  (AggregateFromStep (x, y)).1

end MetricsSummary


/-! ## C text: character classes, `printf` and `scanf` directives -/

/-- The C `isspace` in the "C" locale: space, `\t`, `\n`, `\v`, `\f`, `\r`. -/
def isspace (c : Char) : Bool :=
  c = ' ' || c = '\t' || c = '\n' || c = '\x0b' || c = '\x0c' || c = '\r'

/-- The C `isdigit`. -/
def isdigit (c : Char) : Bool := 48 ≤ c.toNat && c.toNat ≤ 57

/-- Numeric value of a decimal digit character. -/
def digitVal (c : Char) : Nat := c.toNat - 48

/-- The character of a decimal digit. -/
def digitChar (n : Nat) : Char := Char.ofNat (48 + n)

/-- The directives that occur in the two format strings of
`metricssummary.cpp`: ordinary characters (white space included), `%d` and
`%lld`. -/
inductive Directive
  | lit (c : Char)
  | d
  | lld
  deriving DecidableEq, Repr

/-- Splits a format string into its directives. -/
def parseFormat : List Char → List Directive
  | '%' :: 'l' :: 'l' :: 'd' :: rest => Directive.lld :: parseFormat rest
  | '%' :: 'd' :: rest => Directive.d :: parseFormat rest
  | c :: rest => Directive.lit c :: parseFormat rest
  | [] => []

/-! ### Output: `sprintf_s` -/

/-- Decimal digits of `n`, most significant first, prepended to `acc`; `fuel`
bounds the number of digits produced. -/
def printNatAux : Nat → Nat → List Char → List Char
  | 0, _, acc => acc
  | fuel + 1, n, acc =>
    if n < 10 then digitChar n :: acc
    else printNatAux fuel (n / 10) (digitChar (n % 10) :: acc)

/-- Decimal representation of a natural number, without leading zeros. -/
def printNat (n : Nat) : List Char := printNatAux (n + 1) n []

/-- What `%d` and `%lld` print for the value `v`: a minus sign for a negative
value, then the decimal digits of its magnitude. -/
def printInt (v : Int) : List Char :=
  if v < 0 then '-' :: printNat v.natAbs else printNat v.natAbs

/-- The characters produced by a list of directives from the given arguments;
`none` when a conversion has no argument left. -/
def formatOutput : List Directive → List Int → Option (List Char)
  | [], _ => some []
  | Directive.lit c :: fs, args => (formatOutput fs args).map (fun out => c :: out)
  | Directive.d :: fs, a :: args => (formatOutput fs args).map (fun out => printInt a ++ out)
  | Directive.lld :: fs, a :: args => (formatOutput fs args).map (fun out => printInt a ++ out)
  | Directive.d :: _, [] => none
  | Directive.lld :: _, [] => none

/-- The library function `sprintf_s(buffer, sizeOfBuffer, format, ...)`: the
formatted text, or `none` when the text and its terminating NUL do not fit in
`sizeOfBuffer` characters. -/
def sprintf_s (sizeOfBuffer : Nat) (format : List Char) (args : List Int) :
    Option (List Char) :=
  match formatOutput (parseFormat format) args with
  | some out => if out.length < sizeOfBuffer then some out else none
  | none => none

/-- Value of a run of decimal digits read in base ten. -/
def digitsValue (ds : List Char) : Nat := ds.foldl (fun a c => 10 * a + digitVal c) 0

/-- The integer a decimal numeral denotes: an optional sign (`-` or `+`)
followed by one or more decimal digits; `none` for any other text. -/
def decimalValue (cs : List Char) : Option Int :=
  match cs with
  | [] => none
  | c :: ds =>
    if c = '-' then
      if ds ≠ [] ∧ ds.all isdigit = true then some (-(digitsValue ds : Int)) else none
    else if c = '+' then
      if ds ≠ [] ∧ ds.all isdigit = true then some (digitsValue ds : Int) else none
    else if (c :: ds).all isdigit = true then some (digitsValue (c :: ds) : Int)
    else none

/-! ### Input: `sscanf_s` -/

/-- The behaviour of the C runtime where the C standard leaves it open: the
value stored by `%d` / `%lld` when the integer read does not fit the target
(runtime libraries clamp or wrap). -/
structure CRuntime where
  outOfRange32 : Int → Int
  outOfRange64 : Int → Int

/-- A runtime that wraps out-of-range integers around. -/
def CRuntime.wrapping : CRuntime := { outOfRange32 := id, outOfRange64 := id }

/-- The `int` stored by `%d` for the integer `v` read from the input. -/
def CRuntime.storeInt32 (crt : CRuntime) (v : Int) : Int :=
  if fitsInt32 v then v else toInt32 (crt.outOfRange32 v)

/-- The `long long` stored by `%lld` for the integer `v` read from the input. -/
def CRuntime.storeInt64 (crt : CRuntime) (v : Int) : Int :=
  if fitsInt64 v then v else toInt64 (crt.outOfRange64 v)

/-- Skips leading white space. -/
def skipSpace : List Char → List Char
  | c :: cs => if isspace c then skipSpace cs else c :: cs
  | [] => []

/-- Reads the longest run of decimal digits, accumulating its value on `acc`. -/
def scanDigits : List Char → Nat → Nat × List Char
  | c :: cs, acc => if isdigit c then scanDigits cs (10 * acc + digitVal c) else (acc, c :: cs)
  | [], acc => (acc, [])

/-- Outcome of one conversion. -/
inductive ScanItem
  | ok (v : Int) (rest : List Char)
  | matchingFailure
  | inputFailure
  deriving DecidableEq, Repr

/-- One `%d` / `%lld` conversion: skip white space, then read an optionally
signed non-empty run of decimal digits.  The end of the input before any
character of the item is an input failure; anything else that is not an
integer is a matching failure. -/
def scanInteger (inp : List Char) : ScanItem :=
  match skipSpace inp with
  | [] => ScanItem.inputFailure
  | c :: cs =>
    if c = '-' then
      match cs with
      | c1 :: _ =>
        if isdigit c1 then ScanItem.ok (-((scanDigits cs 0).1 : Int)) (scanDigits cs 0).2
        else ScanItem.matchingFailure
      | [] => ScanItem.matchingFailure
    else if c = '+' then
      match cs with
      | c1 :: _ =>
        if isdigit c1 then ScanItem.ok ((scanDigits cs 0).1 : Int) (scanDigits cs 0).2
        else ScanItem.matchingFailure
      | [] => ScanItem.matchingFailure
    else if isdigit c then
      ScanItem.ok ((scanDigits (c :: cs) 0).1 : Int) (scanDigits (c :: cs) 0).2
    else ScanItem.matchingFailure

/-- The return value of `sscanf_s` when it stops after storing `stored`: `EOF`
(-1) for an input failure before the first conversion, otherwise the number
of items stored. -/
def scanReturn (inputFailure : Bool) (stored : List Int) : Int :=
  if inputFailure && stored.isEmpty then -1 else stored.length

/-- Runs the directives over the input.  `stored` are the values already
written through the pointer arguments, in argument order.  A white-space
directive skips any run of white space (possibly empty); any other ordinary
character must be the next input character. -/
def scanDirectives (crt : CRuntime) : List Directive → List Char → List Int → Int × List Int
  | [], _, stored => (scanReturn false stored, stored)
  | Directive.lit c :: fs, inp, stored =>
    if isspace c then scanDirectives crt fs (skipSpace inp) stored
    else
      match inp with
      | [] => (scanReturn true stored, stored)
      | x :: rest =>
        if x = c then scanDirectives crt fs rest stored else (scanReturn false stored, stored)
  | Directive.d :: fs, inp, stored =>
    match scanInteger inp with
    | ScanItem.ok v rest => scanDirectives crt fs rest (stored ++ [crt.storeInt32 v])
    | ScanItem.matchingFailure => (scanReturn false stored, stored)
    | ScanItem.inputFailure => (scanReturn true stored, stored)
  | Directive.lld :: fs, inp, stored =>
    match scanInteger inp with
    | ScanItem.ok v rest => scanDirectives crt fs rest (stored ++ [crt.storeInt64 v])
    | ScanItem.matchingFailure => (scanReturn false stored, stored)
    | ScanItem.inputFailure => (scanReturn true stored, stored)

/-- The library function `sscanf_s(buffer, format, ...)`: its return value and
the values it stored through its pointer arguments, first argument first. -/
def sscanf_s (crt : CRuntime) (buffer : List Char) (format : List Char) : Int × List Int :=
  scanDirectives crt (parseFormat format) buffer []

/-- The C string held in a character buffer: the characters before the first
NUL. -/
def cString (buffer : List Char) : List Char := buffer.takeWhile (fun c => c ≠ '\x00')

/-- Number of conversions (`%d`, `%lld`) among the directives. -/
def convCount : List Directive → Nat
  | [] => 0
  | Directive.lit _ :: fs => convCount fs
  | Directive.d :: fs => convCount fs + 1
  | Directive.lld :: fs => convCount fs + 1

/-- Whether the directives are empty or end with a conversion. -/
def endsWithConversion : List Directive → Bool
  | [] => true
  | [Directive.lit _] => false
  | [Directive.d] => true
  | [Directive.lld] => true
  | _ :: f :: fs => endsWithConversion (f :: fs)

/-- The values stored for the integers `vals` read by the conversions of the
directives: `%d` stores an `int`, `%lld` a `long long`. -/
def storedValues (crt : CRuntime) : List Directive → List Int → List Int
  | Directive.lit _ :: fs, vals => storedValues crt fs vals
  | Directive.d :: fs, v :: vals => crt.storeInt32 v :: storedValues crt fs vals
  | Directive.lld :: fs, v :: vals => crt.storeInt64 v :: storedValues crt fs vals
  | _, _ => []

/-- Whether the text begins with a character of the class `p`. -/
def beginsWith (p : Char → Bool) : List Char → Bool
  | [] => false
  | c :: _ => p c

/-- How a format reads a text, as the C standard describes it:
`ScanMatch fs inp rest vals` says that the directives `fs` match the start of
`inp` and leave `rest`, the conversions reading the integers `vals` in order.

* A white-space character of the format reads the longest run of white space,
  possibly empty: what follows the run does not begin with white space.
* Any other ordinary character reads itself.
* `%d` and `%lld` read a run of white space, then the longest decimal numeral:
  what follows the numeral does not begin with a digit. -/
inductive ScanMatch : List Directive → List Char → List Char → List Int → Prop
  | done (inp : List Char) : ScanMatch [] inp inp []
  | space (c : Char) (fs : List Directive) (ws text rest : List Char) (vals : List Int) :
      isspace c = true → (∀ x, x ∈ ws → isspace x = true) → beginsWith isspace text = false →
      ScanMatch fs text rest vals →
      ScanMatch (Directive.lit c :: fs) (ws ++ text) rest vals
  | char (c : Char) (fs : List Directive) (text rest : List Char) (vals : List Int) :
      isspace c = false → ScanMatch fs text rest vals →
      ScanMatch (Directive.lit c :: fs) (c :: text) rest vals
  | int (fs : List Directive) (ws numeral text rest : List Char) (v : Int) (vals : List Int) :
      (∀ x, x ∈ ws → isspace x = true) → decimalValue numeral = some v →
      beginsWith isdigit text = false → ScanMatch fs text rest vals →
      ScanMatch (Directive.d :: fs) (ws ++ numeral ++ text) rest (v :: vals)
  | longlong (fs : List Directive) (ws numeral text rest : List Char) (v : Int)
      (vals : List Int) :
      (∀ x, x ∈ ws → isspace x = true) → decimalValue numeral = some v →
      beginsWith isdigit text = false → ScanMatch fs text rest vals →
      ScanMatch (Directive.lld :: fs) (ws ++ numeral ++ text) rest (v :: vals)

/-- The directive `f` cannot read the start of `inp`: the scan stops there. -/
def ScanStuck (f : Directive) (inp : List Char) : Prop :=
  ∀ (rest : List Char) (vals : List Int), ¬ ScanMatch [f] inp rest vals

/-- What a scan that starts with the values `stored` leaves stored: either the
whole format has read the input, or the scan has read the directives `fs1` and
stopped at the next one; in both cases the values stored for the integers read
are appended to `stored`. -/
def ScanOutcome (crt : CRuntime) (fs : List Directive) (inp : List Char) (stored out : List Int) :
    Prop :=
  (∃ (rest : List Char) (vals : List Int),
      ScanMatch fs inp rest vals ∧ out = stored ++ storedValues crt fs vals) ∨
  (∃ (fs1 : List Directive) (f : Directive) (fs2 : List Directive) (rest : List Char)
      (vals : List Int),
      fs = fs1 ++ f :: fs2 ∧ ScanMatch fs1 inp rest vals ∧ ScanStuck f rest ∧
      out = stored ++ storedValues crt fs1 vals)

/-! ## `MetricsSummary::SaveToFile` and `MetricsSummary::LoadFromFile` -/

namespace MetricsSummary

/-- The header line of `SaveToFile`, without its newline. -/
def saveHeader : List Char :=
  "Successful compiles,Successful tier0 compiles,Successful tier1 compiles,Failing compiles,Missing compiles,Code bytes,Diffed code bytes,Executed instructions,Tier 0 executed instructions,Tier 1 executed instructions,Diff executed instructions,Diff executed instructions tier 0,Diff executed instructions tier1".toList

/-- The thirteen field names of the header line of `SaveToFile`. -/
def saveHeaderNames : List String :=
  ["Successful compiles", "Successful tier0 compiles", "Successful tier1 compiles",
   "Failing compiles", "Missing compiles", "Code bytes", "Diffed code bytes",
   "Executed instructions", "Tier 0 executed instructions", "Tier 1 executed instructions",
   "Diff executed instructions", "Diff executed instructions tier 0",
   "Diff executed instructions tier1"]

/-- The format string of `SaveToFile` (two adjacent C string literals). -/
def saveFormat : List Char :=
  saveHeader ++ "\n".toList ++ "%d,%d,%d,%d,%d,%lld,%lld,%lld,%lld,%lld,%lld,%lld,%lld\n".toList

/-- The thirteen arguments of the `sprintf_s` call in `SaveToFile`. -/
def saveArgs (s : MetricsSummary) : List Int :=
  [s.SuccessfulCompiles, s.SuccessfulTier0Compiles, s.SuccessfulTier1Compiles,
   s.FailingCompiles, s.MissingCompiles, s.NumCodeBytes, s.NumDiffedCodeBytes,
   s.NumExecutedInstructions, s.NumTier0ExecutedInstructions, s.NumTier1ExecutedInstructions,
   s.NumDiffExecutedInstructions, s.NumTier0DiffExecutedInstructions,
   s.NumTier1DiffExecutedInstructions]

/-- `MetricsSummary::SaveToFile`.  `createOk` says whether `CreateFile` returned
a valid handle, `writeOk` whether `WriteFile` succeeded and wrote every
character.  The result is the boolean returned and the text the file holds
after a successful write (`none` when nothing was written in full). -/
def SaveToFile (s : MetricsSummary) (createOk writeOk : Bool) : Bool × Option (List Char) :=
  if createOk then
    match sprintf_s 4096 saveFormat (saveArgs s) with
    | some buffer => if writeOk then (true, some buffer) else (false, none)
    | none => (false, none)
  else (false, none)

/-- The header line expected by `LoadFromFile`, without its newline. -/
def loadHeader : List Char :=
  "Successful compiles,Failing compiles,Missing compiles,Code bytes,Diffed code bytes,Executed instructions,Diff executed instructions".toList

/-- The format string of `LoadFromFile` (two adjacent C string literals). -/
def loadFormat : List Char :=
  loadHeader ++ "\n".toList ++ "%d,%d,%d,%lld,%lld,%lld,%lld\n".toList

/-- The directives of `loadFormat` up to its last conversion, that is without
the final newline. -/
def loadBody : List Directive :=
  parseFormat (loadHeader ++ "\n".toList ++ "%d,%d,%d,%lld,%lld,%lld,%lld".toList)

/-- The write through the `i`-th pointer argument of the `sscanf_s` call in
`LoadFromFile`. -/
def storeArg (metrics : MetricsSummary) (i : Nat) (v : Int) : MetricsSummary :=
  match i with
  | 0 => { metrics with SuccessfulCompiles := v }
  | 1 => { metrics with FailingCompiles := v }
  | 2 => { metrics with MissingCompiles := v }
  | 3 => { metrics with NumCodeBytes := v }
  | 4 => { metrics with NumDiffedCodeBytes := v }
  | 5 => { metrics with NumExecutedInstructions := v }
  | 6 => { metrics with NumDiffExecutedInstructions := v }
  | _ => metrics

/-- The writes of the values `sscanf_s` stored, the first through pointer
argument number `i`. -/
def storeArgs : Nat → List Int → MetricsSummary → MetricsSummary
  | _, [], metrics => metrics
  | i, v :: vs, metrics => storeArgs (i + 1) vs (storeArg metrics i v)

/-- `MetricsSummary::LoadFromFile`.  `file` is `none` when `CreateFile`,
`GetFileSizeEx` or `ReadFile` fails, otherwise the `stringLen` characters that
`ReadFile` put in the buffer.  The result is the boolean returned and
`*metrics` after the call. -/
def LoadFromFile (crt : CRuntime) (file : Option (List Char)) (metrics : MetricsSummary) :
    Bool × MetricsSummary :=
  match file with
  | none => (false, metrics)
  | some content =>
    let scan := sscanf_s crt (cString content) loadFormat
    (scan.1 == 7, storeArgs 0 scan.2 metrics)

/-- The read format in the words of the spec: the content is the header line
naming the seven fields followed by a data line of seven comma-separated
integers `vals` (the final newline may be missing). -/
def SevenFieldFile (content : List Char) (vals : List Int) : Prop :=
  ∃ numerals : List (List Char),
    numerals.length = 7 ∧ numerals.map decimalValue = vals.map some ∧
    (content = loadHeader ++ ['\n'] ++ [','].intercalate numerals ++ ['\n'] ∨
     content = loadHeader ++ ['\n'] ++ [','].intercalate numerals)

/-- A file with the header line `LoadFromFile` expects and the data line
`SaveToFile` writes for the scenario summary: thirteen integers. -/
def wideDataFile : List Char :=
  loadHeader ++ "\n10,0,0,1,0,2048,0,500000,0,0,0,0,0\n".toList

/-- A file with the expected header line and a data line of two integers. -/
def shortDataFile : List Char := loadHeader ++ "\n1,2\n".toList

/-- A file with the expected header line and a data line of seven integers. -/
def sevenDataFile : List Char := loadHeader ++ "\n10,1,0,2048,0,500000,0\n".toList

/-- The seven fields `LoadFromFile` writes, in argument order. -/
def canonical (s : MetricsSummary) : List Int :=
  [s.SuccessfulCompiles, s.FailingCompiles, s.MissingCompiles, s.NumCodeBytes,
   s.NumDiffedCodeBytes, s.NumExecutedInstructions, s.NumDiffExecutedInstructions]

/-- The six fields `LoadFromFile` never writes. -/
def tiered (s : MetricsSummary) : List Int :=
  [s.SuccessfulTier0Compiles, s.SuccessfulTier1Compiles, s.NumTier0ExecutedInstructions,
   s.NumTier1ExecutedInstructions, s.NumTier0DiffExecutedInstructions,
   s.NumTier1DiffExecutedInstructions]

end MetricsSummary

/-! ## The memory-kind list of `compmemkind.h` -/

/-- The memory kinds: one constructor per `CompMemKindMacro(...)` line of
`compmemkind.h`, in the order of the file. -/
inductive CompMemKind
  | ABI
  | ASTNode
  | ArrayStack
  | AssertionProp
  | BasicBlock
  | CSE
  | CallArgs
  | ClassLayout
  | Codegen
  | CopyProp
  | CorTailCallInfo
  | DebugInfo
  | DebugOnly
  | DepthFirstSearch
  | DominatorMemory
  | EarlyProp
  | FieldSeqStore
  | FixedBitVect
  | FlowEdge
  | GC
  | Generic
  | ImpStack
  | Inlining
  | InstDesc
  | Liveness
  | LSRA
  | LSRA_Interval
  | LSRA_RefPosition
  | LocalAddressVisitor
  | LoopClone
  | LoopHoist
  | LoopIVOpts
  | LoopOpt
  | LoopUnroll
  | Loops
  | LvaTable
  | MemoryPhiArg
  | MemorySsaMap
  | ObjectAllocator
  | Pgo
  | Promotion
  | RangeCheck
  | Reachability
  | SSA
  | SiScope
  | SideEffects
  | TailMergeThrows
  | TreeStatementList
  | Unknown
  | UnwindInfo
  | ValueNumber
  | VariableLiveRanges
  | ZeroInit
  | bitset
  | hashBv
  deriving DecidableEq, Repr

/-- The enumerated set of kinds, in the order of the list. -/
def CompMemKind.all : List CompMemKind :=
  [.ABI, .ASTNode, .ArrayStack, .AssertionProp, .BasicBlock, .CSE, .CallArgs, .ClassLayout,
   .Codegen, .CopyProp, .CorTailCallInfo, .DebugInfo, .DebugOnly, .DepthFirstSearch,
   .DominatorMemory, .EarlyProp, .FieldSeqStore, .FixedBitVect, .FlowEdge, .GC, .Generic,
   .ImpStack, .Inlining, .InstDesc, .Liveness, .LSRA, .LSRA_Interval, .LSRA_RefPosition,
   .LocalAddressVisitor, .LoopClone, .LoopHoist, .LoopIVOpts, .LoopOpt, .LoopUnroll, .Loops,
   .LvaTable, .MemoryPhiArg, .MemorySsaMap, .ObjectAllocator, .Pgo, .Promotion, .RangeCheck,
   .Reachability, .SSA, .SiScope, .SideEffects, .TailMergeThrows, .TreeStatementList,
   .Unknown, .UnwindInfo, .ValueNumber, .VariableLiveRanges, .ZeroInit, .bitset, .hashBv]

/-- The diagnostic name of a kind: the macro argument as a string, which is
how the header says the list is used ("the corresponding array of string
names for these enum members"). -/
def CompMemKind.name : CompMemKind → String
  | .ABI => "ABI"
  | .ASTNode => "ASTNode"
  | .ArrayStack => "ArrayStack"
  | .AssertionProp => "AssertionProp"
  | .BasicBlock => "BasicBlock"
  | .CSE => "CSE"
  | .CallArgs => "CallArgs"
  | .ClassLayout => "ClassLayout"
  | .Codegen => "Codegen"
  | .CopyProp => "CopyProp"
  | .CorTailCallInfo => "CorTailCallInfo"
  | .DebugInfo => "DebugInfo"
  | .DebugOnly => "DebugOnly"
  | .DepthFirstSearch => "DepthFirstSearch"
  | .DominatorMemory => "DominatorMemory"
  | .EarlyProp => "EarlyProp"
  | .FieldSeqStore => "FieldSeqStore"
  | .FixedBitVect => "FixedBitVect"
  | .FlowEdge => "FlowEdge"
  | .GC => "GC"
  | .Generic => "Generic"
  | .ImpStack => "ImpStack"
  | .Inlining => "Inlining"
  | .InstDesc => "InstDesc"
  | .Liveness => "Liveness"
  | .LSRA => "LSRA"
  | .LSRA_Interval => "LSRA_Interval"
  | .LSRA_RefPosition => "LSRA_RefPosition"
  | .LocalAddressVisitor => "LocalAddressVisitor"
  | .LoopClone => "LoopClone"
  | .LoopHoist => "LoopHoist"
  | .LoopIVOpts => "LoopIVOpts"
  | .LoopOpt => "LoopOpt"
  | .LoopUnroll => "LoopUnroll"
  | .Loops => "Loops"
  | .LvaTable => "LvaTable"
  | .MemoryPhiArg => "MemoryPhiArg"
  | .MemorySsaMap => "MemorySsaMap"
  | .ObjectAllocator => "ObjectAllocator"
  | .Pgo => "Pgo"
  | .Promotion => "Promotion"
  | .RangeCheck => "RangeCheck"
  | .Reachability => "Reachability"
  | .SSA => "SSA"
  | .SiScope => "SiScope"
  | .SideEffects => "SideEffects"
  | .TailMergeThrows => "TailMergeThrows"
  | .TreeStatementList => "TreeStatementList"
  | .Unknown => "Unknown"
  | .UnwindInfo => "UnwindInfo"
  | .ValueNumber => "ValueNumber"
  | .VariableLiveRanges => "VariableLiveRanges"
  | .ZeroInit => "ZeroInit"
  | .bitset => "bitset"
  | .hashBv => "hashBv"

/-! ## `manifest_t::read` (bundle manifest) -/

/-- The parts of the bundle reader and of `file_entry_t` that `manifest_t::read`
uses; their code is not in `manifest.cpp`.

* `readEntry` is `file_entry_t::read(reader)`: the entry read and the reader
  advanced past it, or `none` when the read fails (the failure aborts
  `manifest_t::read`).
* `needs_extraction` is `file_entry_t::needs_extraction()`.
* `movedFrom e` is the state in which `std::move(e)` leaves the local variable
  once `push_back` has moved its contents into the vector. -/
structure BundleEnv (Reader Entry : Type) where
  readEntry : Reader → Option (Entry × Reader)
  needs_extraction : Entry → Bool
  movedFrom : Entry → Entry

/-- The data members of `manifest_t` that `read` fills. -/
structure manifest_t (Entry : Type) where
  files : List Entry
  m_need_extraction : Bool

namespace manifest_t

/-- Modelled from the spec: the default-constructed `manifest_t` (its
constructor is in `manifest.h`, which is not among the sources): no files, and
the derived flag, an OR over the entries, is false. -/
def empty (Entry : Type) : manifest_t Entry := { files := [], m_need_extraction := false }

/-- The body of the `for` loop of `manifest_t::read`, run `remaining` times:
read an entry, `push_back(std::move(entry))`, then OR the flag with
`entry.needs_extraction()` asked of the moved-from local. -/
def readLoop {Reader Entry : Type} (env : BundleEnv Reader Entry) :
    Nat → Reader → manifest_t Entry → Option (manifest_t Entry × Reader)
  | 0, reader, manifest => some (manifest, reader)
  | remaining + 1, reader, manifest =>
    match env.readEntry reader with
    | none => none
    | some (entry, reader1) =>
      readLoop env remaining reader1
        { files := manifest.files ++ [entry]
          m_need_extraction :=
            manifest.m_need_extraction || env.needs_extraction (env.movedFrom entry) }

/-- `manifest_t::read(reader, num_files)`: the loop runs for `i = 0, ...,
num_files - 1`, so not at all when `num_files ≤ 0`.  The result is the manifest
returned and the reader after the call, or `none` when an entry read fails. -/
def read {Reader Entry : Type} (env : BundleEnv Reader Entry) (reader : Reader)
    (num_files : Int) : Option (manifest_t Entry × Reader) :=
  readLoop env num_files.toNat reader (empty Entry)

end manifest_t

/-- The reader after `i` successful entry reads (`none` if one of them fails). -/
def BundleEnv.readerAfter {Reader Entry : Type} (env : BundleEnv Reader Entry) :
    Nat → Reader → Option Reader
  | 0, reader => some reader
  | i + 1, reader =>
    match env.readEntry reader with
    | none => none
    | some (_, reader1) => env.readerAfter i reader1

/-- The `i`-th record of the stream (from 0): the entry that the read following
`i` successful reads returns. -/
def BundleEnv.record {Reader Entry : Type} (env : BundleEnv Reader Entry) (i : Nat)
    (reader : Reader) : Option Entry :=
  match env.readerAfter i reader with
  | none => none
  | some readerI => (env.readEntry readerI).map Prod.fst

/-- A concrete bundle used to exercise the theorems: the reader is the list of
records still to be read, a record is a pair of a path and its type flag, an
entry needs extraction when the flag is set, and a move empties the path. -/
def BundleEnv.sample : BundleEnv (List (String × Bool)) (String × Bool) :=
  { readEntry := fun reader =>
      match reader with
      | [] => none
      | entry :: rest => some (entry, rest)
    needs_extraction := fun entry => entry.2
    movedFrom := fun entry => ("", entry.2) }

/-- Modelled from the spec: a file entry (`file_entry_t`, declared in
`file_entry.h`, which is not among the sources).  The spec gives each entry
its own "needs extraction" flag; `contents` stands for the rest of the record
(offset, size, path). -/
structure file_entry_t (Contents : Type) where
  contents : Contents
  m_needs_extraction : Bool

/-- Modelled from the spec: `file_entry_t::needs_extraction()`, not among the
sources, reports the entry's own "needs extraction" flag. -/
def file_entry_t.needs_extraction {Contents : Type} (entry : file_entry_t Contents) : Bool :=
  entry.m_needs_extraction

/-- Modelled from the spec: the local `entry` after
`push_back(std::move(entry))`; the move constructor of `file_entry_t` is not
among the sources.  The move hands the contents over to the element of the
vector and leaves `hollow contents` behind; the entry's own flag, a plain
value, is copied by the move and stays in the local. -/
def file_entry_t.movedFrom {Contents : Type} (hollow : Contents → Contents)
    (entry : file_entry_t Contents) : file_entry_t Contents :=
  { entry with contents := hollow entry.contents }

/-- The bundle environment of the entries modelled from the spec, for a given
`file_entry_t::read` and a given effect of the move on the contents. -/
def BundleEnv.ofEntries {Reader Contents : Type}
    (readEntry : Reader → Option (file_entry_t Contents × Reader))
    (hollow : Contents → Contents) : BundleEnv Reader (file_entry_t Contents) :=
  { readEntry := readEntry
    needs_extraction := file_entry_t.needs_extraction
    movedFrom := file_entry_t.movedFrom hollow }

/-- Reads the next entry of a stream held as the list of its entries. -/
def readListEntry {Contents : Type} (reader : List (file_entry_t Contents)) :
    Option (file_entry_t Contents × List (file_entry_t Contents)) :=
  match reader with
  | [] => none
  | entry :: rest => some (entry, rest)

/-- A stream of three entries, the second of which needs extraction. -/
def sampleEntries : List (file_entry_t String) :=
  [{ contents := "a.dll", m_needs_extraction := false },
   { contents := "b.so", m_needs_extraction := true },
   { contents := "c.json", m_needs_extraction := false }]

/-! ## The arena allocator -/

/-- Modelled from the spec: a page (§3), a raw block of `capacity` bytes with a
`cursor` marking the next free byte.  The allocator's code is not among the
sources. -/
structure Page where
  capacity : Nat
  cursor : Nat
  deriving DecidableEq, Repr

/-- Modelled from the spec: the two states of the arena state machine (§4.3). -/
inductive ArenaState
  | Active
  | TornDown
  deriving DecidableEq, Repr

/-- Modelled from the spec: the error conditions of the arena (§4.3, §7):
a page request the host cannot satisfy, and a call on a torn-down arena. -/
inductive ArenaError
  | OutOfMemory
  | PreconditionViolation
  deriving DecidableEq, Repr

/-- Modelled from the spec: the tuning constants and the host (§4.2):
the word alignment, the default page size, and which page capacities the host
can supply. -/
structure ArenaConfig where
  wordAlignment : Nat
  defaultPageSize : Nat
  hostSupplies : Nat → Bool

/-- Modelled from the spec: the arena (§3): its pages in acquisition order, the
last being the current one, and a counter pair per kind. -/
structure Arena where
  pages : List Page
  count : CompMemKind → Nat
  bytes : CompMemKind → Nat
  state : ArenaState

/-- Modelled from the spec: the usage snapshot (§3), a copy of the counters. -/
structure UsageSnapshot where
  count : CompMemKind → Nat
  bytes : CompMemKind → Nat

/-- Modelled from the spec: a block returned by `allocate`: the index of its
page, its offset and size in the page, and whether it was zero-filled. -/
structure Block where
  page : Nat
  offset : Nat
  size : Nat
  zeroed : Bool
  deriving DecidableEq, Repr

/-- Modelled from the spec: `size` rounded up to a multiple of `alignment`
(§4.3 step 1). -/
def roundUp (size alignment : Nat) : Nat := (size + alignment - 1) / alignment * alignment

/-- Modelled from the spec: `acquire(minSize)` of the page manager (§4.2): a new
page of capacity `max(defaultPageSize, minSize)`, or OutOfMemory. -/
def PageManager.acquire (cfg : ArenaConfig) (minSize : Nat) : Except ArenaError Page :=
  if cfg.hostSupplies (max cfg.defaultPageSize minSize) then
    Except.ok { capacity := max cfg.defaultPageSize minSize, cursor := 0 }
  else Except.error ArenaError.OutOfMemory

namespace Arena

/-- Modelled from the spec: a freshly created arena: active, no page yet, all
counters zero. -/
def fresh : Arena :=
  { pages := [], count := fun _ => 0, bytes := fun _ => 0, state := ArenaState.Active }

/-- Modelled from the spec: step 3 of `allocate` (§4.3): `count[kind] += 1`,
`bytes[kind] += roundedSize`. -/
def account (a : Arena) (kind : CompMemKind) (roundedSize : Nat) : Arena :=
  { a with
    count := fun k => if k = kind then a.count k + 1 else a.count k
    bytes := fun k => if k = kind then a.bytes k + roundedSize else a.bytes k }

/-- Modelled from the spec: `allocate(kind, size, alignment)` (§4.3): round the
size up, take the block from the current page if it has room and from a newly
acquired page otherwise, update the counters of the kind, and zero-fill for
the reserved kind. -/
def allocate (cfg : ArenaConfig) (a : Arena) (kind : CompMemKind) (size alignment : Nat) :
    Except ArenaError (Arena × Block) :=
  match a.state with
  | ArenaState.TornDown => Except.error ArenaError.PreconditionViolation
  | ArenaState.Active =>
    let roundedSize := roundUp size alignment
    let zeroed := decide (kind = CompMemKind.ZeroInit)
    match a.pages.getLast? with
    | some current =>
      if roundedSize ≤ current.capacity - current.cursor then
        Except.ok
          (account { a with pages := a.pages.dropLast ++
                      [{ current with cursor := current.cursor + roundedSize }] }
            kind roundedSize,
           { page := a.pages.length - 1, offset := current.cursor, size := roundedSize,
             zeroed := zeroed })
      else
        match PageManager.acquire cfg roundedSize with
        | Except.error e => Except.error e
        | Except.ok page =>
          Except.ok
            (account { a with pages := a.pages ++ [{ page with cursor := roundedSize }] }
              kind roundedSize,
             { page := a.pages.length, offset := 0, size := roundedSize, zeroed := zeroed })
    | none =>
      match PageManager.acquire cfg roundedSize with
      | Except.error e => Except.error e
      | Except.ok page =>
        Except.ok
          (account { a with pages := a.pages ++ [{ page with cursor := roundedSize }] }
            kind roundedSize,
           { page := a.pages.length, offset := 0, size := roundedSize, zeroed := zeroed })

/-- Modelled from the spec: `snapshot()` (§4.3): a copy of the counters, legal
only in the active state. -/
def snapshot (a : Arena) : Except ArenaError UsageSnapshot :=
  match a.state with
  | ArenaState.TornDown => Except.error ArenaError.PreconditionViolation
  | ArenaState.Active => Except.ok { count := a.count, bytes := a.bytes }

/-- Modelled from the spec: `teardown()` (§4.3): release every page and enter
the terminal state. -/
def teardown (a : Arena) : Arena := { a with pages := [], state := ArenaState.TornDown }

/-- A sequence of `allocate` calls with the default (word) alignment, each on
the arena left by the previous one; the first failure ends the sequence. -/
def allocateAll (cfg : ArenaConfig) : List (CompMemKind × Nat) → Arena → Except ArenaError Arena
  | [], a => Except.ok a
  | (kind, size) :: calls, a =>
    match allocate cfg a kind size cfg.wordAlignment with
    | Except.error e => Except.error e
    | Except.ok (a1, _) => allocateAll cfg calls a1

/-- `n` calls `allocate(kind, size)` in a row. -/
def allocateN (cfg : ArenaConfig) (n : Nat) (kind : CompMemKind) (size : Nat) (a : Arena) :
    Except ArenaError Arena :=
  allocateAll cfg (List.replicate n (kind, size)) a

end Arena

/-- A sample configuration: 8-byte words, 64 KiB pages, a host that supplies
any page of at most 1 MiB. -/
def ArenaConfig.sample : ArenaConfig :=
  { wordAlignment := 8, defaultPageSize := 65536, hostSupplies := fun n => decide (n ≤ 1048576) }

/-! # Theorems -/

/-! ## Lemmas on fixed-width integers -/

theorem toInt32_of_fits {x : Int} (h : fitsInt32 x) : toInt32 x = x := by
  unfold fitsInt32 at h
  unfold toInt32
  omega

theorem toInt64_of_fits {x : Int} (h : fitsInt64 x) : toInt64 x = x := by
  unfold fitsInt64 at h
  unfold toInt64
  omega

theorem fitsInt32_toInt32 (x : Int) : fitsInt32 (toInt32 x) := by
  unfold fitsInt32 toInt32
  omega

theorem fitsInt64_toInt64 (x : Int) : fitsInt64 (toInt64 x) := by
  unfold fitsInt64 toInt64
  omega

theorem toInt32_add_left (x y : Int) : toInt32 (toInt32 x + y) = toInt32 (x + y) := by
  unfold toInt32
  omega

theorem toInt32_add_right (x y : Int) : toInt32 (x + toInt32 y) = toInt32 (x + y) := by
  unfold toInt32
  omega

theorem toInt64_add_left (x y : Int) : toInt64 (toInt64 x + y) = toInt64 (x + y) := by
  unfold toInt64
  omega

theorem toInt64_add_right (x y : Int) : toInt64 (x + toInt64 y) = toInt64 (x + y) := by
  unfold toInt64
  omega

/-! ## `AggregateFrom` -/

/-- The scenario summary holds values of the field types. -/
theorem MetricsSummary.scenario_valid : MetricsSummary.scenario.Valid := by
  decide

/-- The sums `AggregateFrom` stores are values of the field types. -/
theorem MetricsSummary.AggregateFrom_valid (a b : MetricsSummary) :
    (MetricsSummary.AggregateFrom a b).Valid :=
  ⟨fitsInt32_toInt32 _, fitsInt32_toInt32 _, fitsInt32_toInt32 _, fitsInt32_toInt32 _,
   fitsInt32_toInt32 _, fitsInt64_toInt64 _, fitsInt64_toInt64 _, fitsInt64_toInt64 _,
   fitsInt64_toInt64 _, fitsInt64_toInt64 _, fitsInt64_toInt64 _, fitsInt64_toInt64 _,
   fitsInt64_toInt64 _⟩

/-- C2: `AggregateFrom` is a field-wise sum.  After `a.AggregateFrom(b)` the
argument `b` is unchanged and each of the thirteen fields of `a` is the sum of
that same field of `a` and of `b`, kept in the width of the field: the sum is
exact for the five `int` compile counts when it fits 32 bits, and for the
eight `long long` byte and instruction counters whenever it fits a signed
64-bit integer. -/
theorem MetricsSummary.AggregateFrom_fieldwise_sum (a b : MetricsSummary) :
    (AggregateFromStep (a, b)).2 = b ∧
    (AggregateFromStep (a, b)).1 = AggregateFrom a b ∧
    ((AggregateFrom a b).SuccessfulCompiles
        = toInt32 (a.SuccessfulCompiles + b.SuccessfulCompiles) ∧
     (AggregateFrom a b).SuccessfulTier0Compiles
        = toInt32 (a.SuccessfulTier0Compiles + b.SuccessfulTier0Compiles) ∧
     (AggregateFrom a b).SuccessfulTier1Compiles
        = toInt32 (a.SuccessfulTier1Compiles + b.SuccessfulTier1Compiles) ∧
     (AggregateFrom a b).FailingCompiles = toInt32 (a.FailingCompiles + b.FailingCompiles) ∧
     (AggregateFrom a b).MissingCompiles = toInt32 (a.MissingCompiles + b.MissingCompiles) ∧
     (AggregateFrom a b).NumCodeBytes = toInt64 (a.NumCodeBytes + b.NumCodeBytes) ∧
     (AggregateFrom a b).NumDiffedCodeBytes
        = toInt64 (a.NumDiffedCodeBytes + b.NumDiffedCodeBytes) ∧
     (AggregateFrom a b).NumExecutedInstructions
        = toInt64 (a.NumExecutedInstructions + b.NumExecutedInstructions) ∧
     (AggregateFrom a b).NumTier0ExecutedInstructions
        = toInt64 (a.NumTier0ExecutedInstructions + b.NumTier0ExecutedInstructions) ∧
     (AggregateFrom a b).NumTier1ExecutedInstructions
        = toInt64 (a.NumTier1ExecutedInstructions + b.NumTier1ExecutedInstructions) ∧
     (AggregateFrom a b).NumDiffExecutedInstructions
        = toInt64 (a.NumDiffExecutedInstructions + b.NumDiffExecutedInstructions) ∧
     (AggregateFrom a b).NumTier0DiffExecutedInstructions
        = toInt64 (a.NumTier0DiffExecutedInstructions + b.NumTier0DiffExecutedInstructions) ∧
     (AggregateFrom a b).NumTier1DiffExecutedInstructions
        = toInt64 (a.NumTier1DiffExecutedInstructions + b.NumTier1DiffExecutedInstructions)) ∧
    ((fitsInt32 (a.SuccessfulCompiles + b.SuccessfulCompiles) →
        (AggregateFrom a b).SuccessfulCompiles = a.SuccessfulCompiles + b.SuccessfulCompiles) ∧
     (fitsInt32 (a.SuccessfulTier0Compiles + b.SuccessfulTier0Compiles) →
        (AggregateFrom a b).SuccessfulTier0Compiles
          = a.SuccessfulTier0Compiles + b.SuccessfulTier0Compiles) ∧
     (fitsInt32 (a.SuccessfulTier1Compiles + b.SuccessfulTier1Compiles) →
        (AggregateFrom a b).SuccessfulTier1Compiles
          = a.SuccessfulTier1Compiles + b.SuccessfulTier1Compiles) ∧
     (fitsInt32 (a.FailingCompiles + b.FailingCompiles) →
        (AggregateFrom a b).FailingCompiles = a.FailingCompiles + b.FailingCompiles) ∧
     (fitsInt32 (a.MissingCompiles + b.MissingCompiles) →
        (AggregateFrom a b).MissingCompiles = a.MissingCompiles + b.MissingCompiles)) ∧
    ((fitsInt64 (a.NumCodeBytes + b.NumCodeBytes) →
        (AggregateFrom a b).NumCodeBytes = a.NumCodeBytes + b.NumCodeBytes) ∧
     (fitsInt64 (a.NumDiffedCodeBytes + b.NumDiffedCodeBytes) →
        (AggregateFrom a b).NumDiffedCodeBytes = a.NumDiffedCodeBytes + b.NumDiffedCodeBytes) ∧
     (fitsInt64 (a.NumExecutedInstructions + b.NumExecutedInstructions) →
        (AggregateFrom a b).NumExecutedInstructions
          = a.NumExecutedInstructions + b.NumExecutedInstructions) ∧
     (fitsInt64 (a.NumTier0ExecutedInstructions + b.NumTier0ExecutedInstructions) →
        (AggregateFrom a b).NumTier0ExecutedInstructions
          = a.NumTier0ExecutedInstructions + b.NumTier0ExecutedInstructions) ∧
     (fitsInt64 (a.NumTier1ExecutedInstructions + b.NumTier1ExecutedInstructions) →
        (AggregateFrom a b).NumTier1ExecutedInstructions
          = a.NumTier1ExecutedInstructions + b.NumTier1ExecutedInstructions) ∧
     (fitsInt64 (a.NumDiffExecutedInstructions + b.NumDiffExecutedInstructions) →
        (AggregateFrom a b).NumDiffExecutedInstructions
          = a.NumDiffExecutedInstructions + b.NumDiffExecutedInstructions) ∧
     (fitsInt64 (a.NumTier0DiffExecutedInstructions + b.NumTier0DiffExecutedInstructions) →
        (AggregateFrom a b).NumTier0DiffExecutedInstructions
          = a.NumTier0DiffExecutedInstructions + b.NumTier0DiffExecutedInstructions) ∧
     (fitsInt64 (a.NumTier1DiffExecutedInstructions + b.NumTier1DiffExecutedInstructions) →
        (AggregateFrom a b).NumTier1DiffExecutedInstructions
          = a.NumTier1DiffExecutedInstructions + b.NumTier1DiffExecutedInstructions)) := by
  refine ⟨rfl, rfl, ⟨rfl, rfl, rfl, rfl, rfl, rfl, rfl, rfl, rfl, rfl, rfl, rfl, rfl⟩,
    ⟨?_, ?_, ?_, ?_, ?_⟩, ⟨?_, ?_, ?_, ?_, ?_, ?_, ?_, ?_⟩⟩
  all_goals
    intro h
    first
      | exact toInt32_of_fits h
      | exact toInt64_of_fits h

/-- Witness for C2: two summaries whose executed-instruction counts are
`2^62` and `2^62 - 1`; the sum, `2^63 - 1`, still fits and is exact. -/
theorem MetricsSummary.AggregateFrom_fieldwise_sum_witness :
    (AggregateFrom (executed 4611686018427387904) (executed 4611686018427387903)
      ).NumExecutedInstructions = 4611686018427387904 + 4611686018427387903 :=
  (MetricsSummary.AggregateFrom_fieldwise_sum (executed 4611686018427387904)
    (executed 4611686018427387903)).2.2.2.2.2.2.1 (by decide)

/-- C3: aggregation is associative and commutative.  With `combine x y` a copy
of `x` after `AggregateFrom(y)`, the three groupings `combine (combine a b) c`,
`combine a (combine b c)` and `combine b (combine a c)` are the same summary,
hence equal in each of the thirteen fields. -/
theorem MetricsSummary.combine_assoc_comm (a b c : MetricsSummary) :
    combine (combine a b) c = combine a (combine b c) ∧
    combine a (combine b c) = combine b (combine a c) := by
  constructor
  · simp only [combine, AggregateFromStep, AggregateFrom, toInt32_add_left, toInt32_add_right,
      toInt64_add_left, toInt64_add_right, add_assoc]
  · simp only [combine, AggregateFromStep, AggregateFrom, toInt32_add_left, toInt32_add_right,
      toInt64_add_left, toInt64_add_right, add_left_comm]

/-! ## `manifest_t::read` -/

theorem BundleEnv.record_zero {Reader Entry : Type} (env : BundleEnv Reader Entry)
    (reader : Reader) : env.record 0 reader = (env.readEntry reader).map Prod.fst := by
  simp [BundleEnv.record, BundleEnv.readerAfter]

theorem BundleEnv.record_succ {Reader Entry : Type} (env : BundleEnv Reader Entry)
    (reader reader1 : Reader) (entry : Entry) (i : Nat)
    (h : env.readEntry reader = some (entry, reader1)) :
    env.record (i + 1) reader = env.record i reader1 := by
  simp [BundleEnv.record, BundleEnv.readerAfter, h]

/-- The loop of `manifest_t::read` on a stream whose next `n` reads succeed:
it appends the `n` records in stream order, ORs their flags (asked of the
moved-from locals) into the manifest flag, and leaves the reader after the
`n`-th record. -/
theorem manifest_t.readLoop_spec {Reader Entry : Type} (env : BundleEnv Reader Entry) :
    ∀ (n : Nat) (reader : Reader) (manifest : manifest_t Entry),
      (∀ i, i < n → (env.record i reader).isSome = true) →
      ∃ (es : List Entry) (reader1 : Reader),
        manifest_t.readLoop env n reader manifest
          = some ({ files := manifest.files ++ es
                    m_need_extraction := manifest.m_need_extraction ||
                      es.any (fun e => env.needs_extraction (env.movedFrom e)) }, reader1) ∧
        es.length = n ∧
        (∀ i, i < n → es[i]? = env.record i reader) ∧
        env.readerAfter n reader = some reader1 := by
  intro n
  induction n with
  | zero =>
    intro reader manifest _
    exact ⟨[], reader, by simp [manifest_t.readLoop], rfl, by simp, rfl⟩
  | succ n ih =>
    intro reader manifest h
    have h0 := h 0 (Nat.succ_pos n)
    rw [BundleEnv.record_zero] at h0
    cases hr : env.readEntry reader with
    | none => simp [hr] at h0
    | some p =>
      obtain ⟨entry, reader1⟩ := p
      have hrest : ∀ i, i < n → (env.record i reader1).isSome = true := by
        intro i hi
        have := h (i + 1) (Nat.succ_lt_succ hi)
        rwa [BundleEnv.record_succ env reader reader1 entry i hr] at this
      obtain ⟨es, reader2, hloop, hlen, hidx, hafter⟩ :=
        ih reader1
          { files := manifest.files ++ [entry]
            m_need_extraction :=
              manifest.m_need_extraction || env.needs_extraction (env.movedFrom entry) }
          hrest
      refine ⟨entry :: es, reader2, ?_, by simp [hlen], ?_, ?_⟩
      · simp only [manifest_t.readLoop, hr, hloop]
        simp [List.append_assoc, Bool.or_assoc]
      · intro i hi
        cases i with
        | zero => simp [BundleEnv.record_zero, hr]
        | succ j =>
          rw [BundleEnv.record_succ env reader reader1 entry j hr]
          simpa using hidx j (Nat.lt_of_succ_lt_succ hi)
      · simp [BundleEnv.readerAfter, hr, hafter]

/-- C4: manifest entries in stream order.  For every count `num_files` and
every reader from which `max(num_files, 0)` consecutive entry reads succeed,
`manifest_t::read` returns a manifest whose file list has exactly
`max(num_files, 0)` elements, the `i`-th being the `i`-th record of the
stream, and leaves the reader advanced by exactly those records; for
`num_files ≤ 0` the list is empty and the reader untouched. -/
theorem manifest_t.read_stream_order {Reader Entry : Type} (env : BundleEnv Reader Entry)
    (reader : Reader) (num_files : Int)
    (hreads : ∀ i, i < num_files.toNat → (env.record i reader).isSome = true) :
    ∃ (manifest : manifest_t Entry) (reader1 : Reader),
      manifest_t.read env reader num_files = some (manifest, reader1) ∧
      (manifest.files.length : Int) = max num_files 0 ∧
      (∀ i, i < manifest.files.length → manifest.files[i]? = env.record i reader) ∧
      env.readerAfter manifest.files.length reader = some reader1 ∧
      (num_files ≤ 0 → manifest.files = [] ∧ reader1 = reader) := by
  obtain ⟨es, reader1, hloop, hlen, hidx, hafter⟩ :=
    manifest_t.readLoop_spec env num_files.toNat reader (manifest_t.empty Entry) hreads
  refine ⟨_, reader1, hloop, ?_, ?_, ?_, ?_⟩
  · simp only [manifest_t.empty, List.nil_append, hlen]
    omega
  · intro i hi
    simp only [manifest_t.empty, List.nil_append, hlen] at hi ⊢
    exact hidx i hi
  · simpa [manifest_t.empty, hlen] using hafter
  · intro hle
    have hz : num_files.toNat = 0 := by omega
    rw [hz] at hlen hafter
    have hnil : es = [] := List.length_eq_zero.mp hlen
    subst hnil
    simp only [BundleEnv.readerAfter, Option.some.injEq] at hafter
    exact ⟨by simp [manifest_t.empty], hafter.symm⟩

/-- Witness for C4: three entries read from a stream of four records. -/
theorem manifest_t.read_stream_order_witness :
    ∃ (manifest : manifest_t (String × Bool)) (reader1 : List (String × Bool)),
      manifest_t.read BundleEnv.sample
          [("a.dll", false), ("b.so", true), ("c.json", false), ("d.so", true)] 3
        = some (manifest, reader1) ∧
      (manifest.files.length : Int) = max 3 0 ∧
      (∀ i, i < manifest.files.length → manifest.files[i]? = BundleEnv.sample.record i
          [("a.dll", false), ("b.so", true), ("c.json", false), ("d.so", true)]) ∧
      BundleEnv.sample.readerAfter manifest.files.length
          [("a.dll", false), ("b.so", true), ("c.json", false), ("d.so", true)]
        = some reader1 ∧
      ((3 : Int) ≤ 0 → manifest.files = [] ∧
        reader1 = [("a.dll", false), ("b.so", true), ("c.json", false), ("d.so", true)]) :=
  manifest_t.read_stream_order BundleEnv.sample
    [("a.dll", false), ("b.so", true), ("c.json", false), ("d.so", true)] 3 (by decide)

/-- The flag computed by `manifest_t::read` when the moved-from local answers
`needs_extraction()` as the entry did before the move: it is the OR of the
answers of the entries stored. -/
theorem manifest_t.read_need_extraction_of_move {Reader Entry : Type}
    (env : BundleEnv Reader Entry) (reader : Reader) (num_files : Int)
    (hmove : ∀ e, env.needs_extraction (env.movedFrom e) = env.needs_extraction e)
    (hreads : ∀ i, i < num_files.toNat → (env.record i reader).isSome = true) :
    ∃ (manifest : manifest_t Entry) (reader1 : Reader),
      manifest_t.read env reader num_files = some (manifest, reader1) ∧
      manifest.files.length = num_files.toNat ∧
      (∀ i, i < num_files.toNat → manifest.files[i]? = env.record i reader) ∧
      (manifest.m_need_extraction = true ↔
        ∃ e, e ∈ manifest.files ∧ env.needs_extraction e = true) ∧
      (manifest.files = [] → manifest.m_need_extraction = false) := by
  obtain ⟨es, reader1, hloop, hlen, hidx, -⟩ :=
    manifest_t.readLoop_spec env num_files.toNat reader (manifest_t.empty Entry) hreads
  refine ⟨_, reader1, hloop, by simp [manifest_t.empty, hlen], ?_, ?_, ?_⟩
  · intro i hi
    simp only [manifest_t.empty, List.nil_append]
    exact hidx i hi
  · simp [manifest_t.empty, hmove]
  · intro hnil
    simp only [manifest_t.empty, List.nil_append] at hnil
    simp [manifest_t.empty, hnil]

/-- The move of a `file_entry_t` leaves the answer of `needs_extraction()`
as it was: the answer is the entry's own flag, which the move copies. -/
theorem file_entry_t.needs_extraction_movedFrom {Contents : Type}
    (hollow : Contents → Contents) (entry : file_entry_t Contents) :
    (file_entry_t.movedFrom hollow entry).needs_extraction = entry.needs_extraction :=
  rfl

/-- C5: the derived extraction flag.  For every `num_files` and well-formed
stream of file entries, the manifest returned by `manifest_t::read` holds in
its file list the entries as they were read, and its need-extraction flag is
true if and only if at least one of the entries stored in that list reports
`needs_extraction()` true, so it is false for an empty manifest; this although
the code asks `needs_extraction()` of the local after moving it into the list,
whatever the move does to the rest of the entry. -/
theorem manifest_t.read_need_extraction {Reader Contents : Type}
    (readEntry : Reader → Option (file_entry_t Contents × Reader))
    (hollow : Contents → Contents) (reader : Reader) (num_files : Int)
    (hreads : ∀ i, i < num_files.toNat →
      ((BundleEnv.ofEntries readEntry hollow).record i reader).isSome = true) :
    ∃ (manifest : manifest_t (file_entry_t Contents)) (reader1 : Reader),
      manifest_t.read (BundleEnv.ofEntries readEntry hollow) reader num_files
        = some (manifest, reader1) ∧
      manifest.files.length = num_files.toNat ∧
      (∀ i, i < num_files.toNat →
        manifest.files[i]? = (BundleEnv.ofEntries readEntry hollow).record i reader) ∧
      (manifest.m_need_extraction = true ↔
        ∃ e, e ∈ manifest.files ∧ e.needs_extraction = true) ∧
      (manifest.files = [] → manifest.m_need_extraction = false) :=
  manifest_t.read_need_extraction_of_move (BundleEnv.ofEntries readEntry hollow) reader
    num_files (file_entry_t.needs_extraction_movedFrom hollow) hreads

/-- Witness for C5: three entries, the second of which needs extraction; the
move empties the path of the local. -/
theorem manifest_t.read_need_extraction_witness :
    ∃ (manifest : manifest_t (file_entry_t String)) (reader1 : List (file_entry_t String)),
      manifest_t.read (BundleEnv.ofEntries readListEntry (fun _ => "")) sampleEntries 3
        = some (manifest, reader1) ∧
      manifest.files.length = (3 : Int).toNat ∧
      (∀ i, i < (3 : Int).toNat →
        manifest.files[i]?
          = (BundleEnv.ofEntries readListEntry (fun _ => "")).record i sampleEntries) ∧
      (manifest.m_need_extraction = true ↔
        ∃ e, e ∈ manifest.files ∧ e.needs_extraction = true) ∧
      (manifest.files = [] → manifest.m_need_extraction = false) :=
  manifest_t.read_need_extraction readListEntry (fun _ => "") sampleEntries 3 (by decide)

/-! ## Decimal output -/

theorem isdigit_digitChar {n : Nat} (h : n < 10) : isdigit (digitChar n) = true := by
  interval_cases n <;> decide

theorem digitVal_digitChar {n : Nat} (h : n < 10) : digitVal (digitChar n) = n := by
  interval_cases n <;> decide

theorem isdigit_ne_minus {c : Char} (h : isdigit c = true) : c ≠ '-' := by
  intro hc
  subst hc
  exact absurd h (by decide)

theorem isdigit_ne_plus {c : Char} (h : isdigit c = true) : c ≠ '+' := by
  intro hc
  subst hc
  exact absurd h (by decide)

theorem isdigit_ne_comma {c : Char} (h : isdigit c = true) : c ≠ ',' := by
  intro hc
  subst hc
  exact absurd h (by decide)

theorem isdigit_ne_newline {c : Char} (h : isdigit c = true) : c ≠ '\n' := by
  intro hc
  subst hc
  exact absurd h (by decide)

/-- With enough fuel `printNatAux` prepends to `acc` a non-empty run of digits
whose base-ten value is `n`, of at most `k` digits when `n < 10 ^ k`. -/
theorem printNatAux_spec :
    ∀ (fuel n : Nat) (acc : List Char), n < fuel →
      ∃ ds : List Char, printNatAux fuel n acc = ds ++ acc ∧ ds ≠ [] ∧
        (∀ c, c ∈ ds → isdigit c = true) ∧
        (∀ a, ds.foldl (fun a c => 10 * a + digitVal c) a = a * 10 ^ ds.length + n) ∧
        (∀ k, 1 ≤ k → n < 10 ^ k → ds.length ≤ k) := by
  intro fuel
  induction fuel with
  | zero => intro n acc h; omega
  | succ fuel ih =>
    intro n acc hfuel
    by_cases hn : n < 10
    · refine ⟨[digitChar n], by simp [printNatAux, hn], by simp, ?_, ?_, ?_⟩
      · intro c hc
        simp only [List.mem_singleton] at hc
        subst hc
        exact isdigit_digitChar hn
      · intro a
        simp only [List.foldl_cons, List.foldl_nil, digitVal_digitChar hn, List.length_singleton]
        omega
      · intro k hk _
        simpa using hk
    · have hdiv : n / 10 < fuel := by omega
      obtain ⟨ds, hds, hne, hdig, hval, hlen⟩ := ih (n / 10) (digitChar (n % 10) :: acc) hdiv
      have hmod : n % 10 < 10 := Nat.mod_lt n (by decide)
      refine ⟨ds ++ [digitChar (n % 10)], ?_, by simp, ?_, ?_, ?_⟩
      · simp [printNatAux, hn, hds]
      · intro c hc
        rcases List.mem_append.mp hc with hc | hc
        · exact hdig c hc
        · simp only [List.mem_singleton] at hc
          subst hc
          exact isdigit_digitChar hmod
      · intro a
        simp only [List.foldl_append, List.foldl_cons, List.foldl_nil, hval,
          digitVal_digitChar hmod, List.length_append, List.length_singleton, pow_succ]
        have := Nat.div_add_mod n 10
        nlinarith [this]
      · intro k hk hlt
        have hk2 : 2 ≤ k := by
          rcases Nat.lt_or_ge k 2 with h | h
          · have : k = 1 := by omega
            subst this
            simp at hlt
            omega
          · exact h
        have hlt2 : n / 10 < 10 ^ (k - 1) := by
          apply Nat.div_lt_of_lt_mul
          have : 10 ^ k = 10 * 10 ^ (k - 1) := by
            rw [← pow_succ']
            congr 1
            omega
          omega
        have := hlen (k - 1) (by omega) hlt2
        simp only [List.length_append, List.length_singleton]
        omega

/-- The text `printNat n` is a non-empty run of digits of value `n`. -/
theorem printNat_spec (n : Nat) :
    printNat n ≠ [] ∧ (∀ c, c ∈ printNat n → isdigit c = true) ∧
    digitsValue (printNat n) = n ∧ (∀ k, 1 ≤ k → n < 10 ^ k → (printNat n).length ≤ k) := by
  obtain ⟨ds, hds, hne, hdig, hval, hlen⟩ := printNatAux_spec (n + 1) n [] (Nat.lt_succ_self n)
  simp only [List.append_nil] at hds
  unfold printNat digitsValue
  rw [hds]
  exact ⟨hne, hdig, by simpa using hval 0, hlen⟩

/-- The text `printInt v` is a decimal numeral denoting `v`. -/
theorem decimalValue_printInt (v : Int) : decimalValue (printInt v) = some v := by
  obtain ⟨hne, hdig, hval, -⟩ := printNat_spec v.natAbs
  have hall : (printNat v.natAbs).all isdigit = true := List.all_eq_true.mpr hdig
  unfold printInt
  by_cases hv : v < 0
  · simp only [hv, if_true, decimalValue, hne, hall, hval, ne_eq, not_false_eq_true, and_self]
    congr 1
    omega
  · simp only [hv, if_false]
    cases hp : printNat v.natAbs with
    | nil => exact absurd hp hne
    | cons c ds =>
      have hc : c ≠ '-' := isdigit_ne_minus (hdig c (by simp [hp]))
      have hc2 : c ≠ '+' := isdigit_ne_plus (hdig c (by simp [hp]))
      rw [hp] at hall hval
      simp only [decimalValue, hc, hc2, if_false, hall, if_true, hval]
      congr 1
      omega

/-- The text `printInt v` contains neither a comma nor a newline. -/
theorem printInt_no_separator (v : Int) : ',' ∉ printInt v ∧ '\n' ∉ printInt v := by
  obtain ⟨-, hdig, -, -⟩ := printNat_spec v.natAbs
  unfold printInt
  constructor
  · intro h
    split at h
    · rcases List.mem_cons.mp h with h | h
      · exact absurd h (by decide)
      · exact isdigit_ne_comma (hdig _ h) rfl
    · exact isdigit_ne_comma (hdig _ h) rfl
  · intro h
    split at h
    · rcases List.mem_cons.mp h with h | h
      · exact absurd h (by decide)
      · exact isdigit_ne_newline (hdig _ h) rfl
    · exact isdigit_ne_newline (hdig _ h) rfl

theorem printInt_length_le (v : Int) (k : Nat) (hk : 1 ≤ k) (h : v.natAbs < 10 ^ k) :
    (printInt v).length ≤ k + 1 := by
  obtain ⟨-, -, -, hlen⟩ := printNat_spec v.natAbs
  have := hlen k hk h
  unfold printInt
  split
  · simp only [List.length_cons]
    omega
  · omega

theorem printInt_length_int32 {v : Int} (h : fitsInt32 v) : (printInt v).length ≤ 11 := by
  apply printInt_length_le v 10 (by decide)
  unfold fitsInt32 at h
  norm_num
  omega

theorem printInt_length_int64 {v : Int} (h : fitsInt64 v) : (printInt v).length ≤ 20 := by
  apply printInt_length_le v 19 (by decide)
  unfold fitsInt64 at h
  norm_num
  omega

/-! ## `SaveToFile` -/

namespace MetricsSummary

set_option maxRecDepth 100000 in
/-- The header line is the thirteen field names separated by commas. -/
theorem saveHeader_eq_names :
    saveHeader = [','].intercalate (saveHeaderNames.map String.toList) := by
  decide

set_option maxRecDepth 100000 in
theorem saveHeader_length : saveHeader.length = 308 := by
  decide

set_option maxRecDepth 100000 in
/-- The two lines `sprintf_s` formats for thirteen values: the header line,
then the values in decimal separated by commas, each line closed by a newline. -/
theorem formatOutput_saveFormat (a1 a2 a3 a4 a5 a6 a7 a8 a9 a10 a11 a12 a13 : Int) :
    formatOutput (parseFormat saveFormat) [a1, a2, a3, a4, a5, a6, a7, a8, a9, a10, a11, a12, a13]
      = some (saveHeader ++ '\n' :: (printInt a1 ++ ',' :: (printInt a2 ++ ',' ::
          (printInt a3 ++ ',' :: (printInt a4 ++ ',' :: (printInt a5 ++ ',' ::
          (printInt a6 ++ ',' :: (printInt a7 ++ ',' :: (printInt a8 ++ ',' ::
          (printInt a9 ++ ',' :: (printInt a10 ++ ',' :: (printInt a11 ++ ',' ::
          (printInt a12 ++ ',' :: (printInt a13 ++ ['\n'])))))))))))))) := by
  rfl

set_option maxRecDepth 100000 in
/-- For a summary holding values of its field types the formatted text fits
the 4096-character buffer, and `SaveToFile` writes it. -/
theorem SaveToFile_text (s : MetricsSummary) (hs : s.Valid) :
    SaveToFile s true true
      = (true, some (saveHeader ++ '\n' :: (printInt s.SuccessfulCompiles ++ ',' ::
          (printInt s.SuccessfulTier0Compiles ++ ',' ::
          (printInt s.SuccessfulTier1Compiles ++ ',' :: (printInt s.FailingCompiles ++ ',' ::
          (printInt s.MissingCompiles ++ ',' :: (printInt s.NumCodeBytes ++ ',' ::
          (printInt s.NumDiffedCodeBytes ++ ',' :: (printInt s.NumExecutedInstructions ++ ',' ::
          (printInt s.NumTier0ExecutedInstructions ++ ',' ::
          (printInt s.NumTier1ExecutedInstructions ++ ',' ::
          (printInt s.NumDiffExecutedInstructions ++ ',' ::
          (printInt s.NumTier0DiffExecutedInstructions ++ ',' ::
          (printInt s.NumTier1DiffExecutedInstructions ++ ['\n']))))))))))))))) := by
  obtain ⟨h1, h2, h3, h4, h5, h6, h7, h8, h9, h10, h11, h12, h13⟩ := hs
  have l1 := printInt_length_int32 h1
  have l2 := printInt_length_int32 h2
  have l3 := printInt_length_int32 h3
  have l4 := printInt_length_int32 h4
  have l5 := printInt_length_int32 h5
  have l6 := printInt_length_int64 h6
  have l7 := printInt_length_int64 h7
  have l8 := printInt_length_int64 h8
  have l9 := printInt_length_int64 h9
  have l10 := printInt_length_int64 h10
  have l11 := printInt_length_int64 h11
  have l12 := printInt_length_int64 h12
  have l13 := printInt_length_int64 h13
  simp only [SaveToFile, sprintf_s, saveArgs, formatOutput_saveFormat, if_true]
  rw [if_pos]
  simp only [List.length_append, List.length_cons, List.length_nil, saveHeader_length]
  omega

end MetricsSummary

/-- C8: the write format.  For every summary `s` (holding values of its field
types), the text `SaveToFile` produces is exactly two newline-terminated
lines: a header of thirteen comma-separated field names, then thirteen
comma-separated decimal numerals which denote, in this order, `s`'s
successful, successful-tier0, successful-tier1, failing and missing compile
counts, code bytes, diffed code bytes, executed instructions, tier0 and tier1
executed instructions, diff executed instructions, and diff tier0 and diff
tier1 executed instructions. -/
theorem MetricsSummary.SaveToFile_write_format (s : MetricsSummary) (hs : s.Valid) :
    ∃ (names numerals : List (List Char)),
      SaveToFile s true true
        = (true, some ([','].intercalate names ++ ['\n'] ++
                       [','].intercalate numerals ++ ['\n'])) ∧
      names = saveHeaderNames.map String.toList ∧ names.length = 13 ∧
      (∀ t, t ∈ names → t ≠ [] ∧ ',' ∉ t ∧ '\n' ∉ t) ∧
      numerals.map decimalValue
        = [some s.SuccessfulCompiles, some s.SuccessfulTier0Compiles,
           some s.SuccessfulTier1Compiles, some s.FailingCompiles, some s.MissingCompiles,
           some s.NumCodeBytes, some s.NumDiffedCodeBytes, some s.NumExecutedInstructions,
           some s.NumTier0ExecutedInstructions, some s.NumTier1ExecutedInstructions,
           some s.NumDiffExecutedInstructions, some s.NumTier0DiffExecutedInstructions,
           some s.NumTier1DiffExecutedInstructions] ∧
      (∀ t, t ∈ numerals → ',' ∉ t ∧ '\n' ∉ t) := by
  refine ⟨saveHeaderNames.map String.toList,
    [printInt s.SuccessfulCompiles, printInt s.SuccessfulTier0Compiles,
     printInt s.SuccessfulTier1Compiles, printInt s.FailingCompiles, printInt s.MissingCompiles,
     printInt s.NumCodeBytes, printInt s.NumDiffedCodeBytes, printInt s.NumExecutedInstructions,
     printInt s.NumTier0ExecutedInstructions, printInt s.NumTier1ExecutedInstructions,
     printInt s.NumDiffExecutedInstructions, printInt s.NumTier0DiffExecutedInstructions,
     printInt s.NumTier1DiffExecutedInstructions], ?_, rfl, by decide, by decide, ?_, ?_⟩
  · rw [MetricsSummary.SaveToFile_text s hs, ← MetricsSummary.saveHeader_eq_names]
    simp [List.intercalate, List.intersperse]
  · simp [decimalValue_printInt]
  · intro t ht
    simp only [List.mem_cons, List.mem_nil_iff, or_false] at ht
    rcases ht with h | h | h | h | h | h | h | h | h | h | h | h | h <;> subst h <;>
      exact printInt_no_separator _

/-- Witness for C8: the scenario summary. -/
theorem MetricsSummary.SaveToFile_write_format_witness :
    ∃ (names numerals : List (List Char)),
      SaveToFile scenario true true
        = (true, some ([','].intercalate names ++ ['\n'] ++
                       [','].intercalate numerals ++ ['\n'])) ∧
      names = saveHeaderNames.map String.toList ∧ names.length = 13 ∧
      (∀ t, t ∈ names → t ≠ [] ∧ ',' ∉ t ∧ '\n' ∉ t) ∧
      numerals.map decimalValue
        = [some scenario.SuccessfulCompiles, some scenario.SuccessfulTier0Compiles,
           some scenario.SuccessfulTier1Compiles, some scenario.FailingCompiles,
           some scenario.MissingCompiles, some scenario.NumCodeBytes,
           some scenario.NumDiffedCodeBytes, some scenario.NumExecutedInstructions,
           some scenario.NumTier0ExecutedInstructions, some scenario.NumTier1ExecutedInstructions,
           some scenario.NumDiffExecutedInstructions,
           some scenario.NumTier0DiffExecutedInstructions,
           some scenario.NumTier1DiffExecutedInstructions] ∧
      (∀ t, t ∈ numerals → ',' ∉ t ∧ '\n' ∉ t) :=
  MetricsSummary.SaveToFile_write_format scenario (by decide)

/-! ## `LoadFromFile` on the output of `SaveToFile` -/

set_option maxRecDepth 100000 in
/-- On any text that starts with the header line of `SaveToFile`, the scan of
`LoadFromFile` stops in the header: after `Successful compiles,` the format
expects `Failing compiles` and the text continues with `Successful tier0
compiles`.  No item is stored and `sscanf_s` returns 0. -/
theorem MetricsSummary.sscanf_s_saveHeader (crt : CRuntime) (rest : List Char) :
    sscanf_s crt (cString (MetricsSummary.saveHeader ++ rest)) MetricsSummary.loadFormat
      = (0, []) := by
  rfl

/-- C1 (what the code does): for every summary `s` holding values of its field
types, `SaveToFile` succeeds and writes a text on which `LoadFromFile` returns
false, whatever the target, and leaves the target as it was; the saved
summary is not reloaded. -/
theorem MetricsSummary.LoadFromFile_SaveToFile_fails (crt : CRuntime)
    (s target : MetricsSummary) (hs : s.Valid) :
    ∃ text : List Char,
      SaveToFile s true true = (true, some text) ∧
      LoadFromFile crt (some text) target = (false, target) := by
  refine ⟨_, MetricsSummary.SaveToFile_text s hs, ?_⟩
  simp only [LoadFromFile, MetricsSummary.sscanf_s_saveHeader, storeArgs]
  rfl

/-- Witness for C1: the scenario summary (10, 1, 0, 2048, 0, 500000, 0) saved
and loaded into a fresh summary. -/
theorem MetricsSummary.LoadFromFile_SaveToFile_fails_witness :
    ∃ text : List Char,
      SaveToFile scenario true true = (true, some text) ∧
      LoadFromFile CRuntime.wrapping (some text) zero = (false, zero) :=
  MetricsSummary.LoadFromFile_SaveToFile_fails CRuntime.wrapping scenario zero (by decide)

/-! ## The scan engine against the grammar of formats -/

theorem isspace_eq_false_of_isdigit {c : Char} (h : isdigit c = true) : isspace c = false := by
  cases hs : isspace c with
  | false => rfl
  | true =>
    simp only [isspace, Bool.or_eq_true, decide_eq_true_eq] at hs
    rcases hs with ((((hs | hs) | hs) | hs) | hs) | hs <;> subst hs <;>
      exact absurd h (by decide)

theorem skipSpace_split (inp : List Char) :
    ∃ ws : List Char, inp = ws ++ skipSpace inp ∧ ∀ x, x ∈ ws → isspace x = true := by
  induction inp with
  | nil => exact ⟨[], rfl, by simp⟩
  | cons c cs ih =>
    by_cases hc : isspace c = true
    · obtain ⟨ws, hws, hall⟩ := ih
      refine ⟨c :: ws, ?_, ?_⟩
      · simp only [skipSpace, hc, if_true, List.cons_append]
        rw [← hws]
      · intro x hx
        rcases List.mem_cons.mp hx with h | h
        · exact h ▸ hc
        · exact hall x h
    · exact ⟨[], by simp [skipSpace, hc], by simp⟩

theorem skipSpace_append_space {ws : List Char} (text : List Char)
    (h : ∀ x, x ∈ ws → isspace x = true) : skipSpace (ws ++ text) = skipSpace text := by
  induction ws with
  | nil => rfl
  | cons c cs ih =>
    have hc : isspace c = true := h c (by simp)
    simp only [List.cons_append, skipSpace, hc, if_true]
    exact ih (fun x hx => h x (List.mem_cons_of_mem _ hx))

theorem skipSpace_eq_self {text : List Char} (h : beginsWith isspace text = false) :
    skipSpace text = text := by
  cases text with
  | nil => rfl
  | cons c cs =>
    simp only [beginsWith] at h
    simp [skipSpace, h]

theorem beginsWith_skipSpace (inp : List Char) :
    beginsWith isspace (skipSpace inp) = false := by
  induction inp with
  | nil => rfl
  | cons c cs ih =>
    by_cases hc : isspace c = true
    · simpa [skipSpace, hc] using ih
    · simp [skipSpace, hc, beginsWith]

theorem scanDigits_spec :
    ∀ (cs : List Char) (acc : Nat),
      ∃ ds : List Char, cs = ds ++ (scanDigits cs acc).2 ∧ (∀ c, c ∈ ds → isdigit c = true) ∧
        (scanDigits cs acc).1 = ds.foldl (fun a c => 10 * a + digitVal c) acc := by
  intro cs
  induction cs with
  | nil => intro acc; exact ⟨[], rfl, by simp, rfl⟩
  | cons c cs ih =>
    intro acc
    by_cases hc : isdigit c = true
    · obtain ⟨ds, hds, hall, hval⟩ := ih (10 * acc + digitVal c)
      refine ⟨c :: ds, ?_, ?_, ?_⟩
      · simp only [scanDigits, hc, if_true, List.cons_append]
        rw [← hds]
      · intro x hx
        rcases List.mem_cons.mp hx with h | h
        · exact h ▸ hc
        · exact hall x h
      · simp only [scanDigits, hc, if_true, List.foldl_cons]
        exact hval
    · exact ⟨[], by simp [scanDigits, hc], by simp, by simp [scanDigits, hc]⟩

/-- The digits `scanDigits` reads are the longest run: what it leaves does not
begin with a digit. -/
theorem beginsWith_scanDigits :
    ∀ (cs : List Char) (acc : Nat), beginsWith isdigit (scanDigits cs acc).2 = false := by
  intro cs
  induction cs with
  | nil => intro acc; rfl
  | cons c cs ih =>
    intro acc
    by_cases hc : isdigit c = true
    · simpa [scanDigits, hc] using ih (10 * acc + digitVal c)
    · simp [scanDigits, hc, beginsWith]

/-- On a run of digits followed by a text that does not begin with a digit,
`scanDigits` reads exactly the run. -/
theorem scanDigits_append :
    ∀ (ds text : List Char) (acc : Nat),
      (∀ c, c ∈ ds → isdigit c = true) → beginsWith isdigit text = false →
      scanDigits (ds ++ text) acc = (ds.foldl (fun a c => 10 * a + digitVal c) acc, text) := by
  intro ds
  induction ds with
  | nil =>
    intro text acc _ ht
    cases text with
    | nil => rfl
    | cons c cs =>
      simp only [beginsWith] at ht
      simp [scanDigits, ht]
  | cons d ds ih =>
    intro text acc hd ht
    have hdd : isdigit d = true := hd d (by simp)
    simp only [List.cons_append, scanDigits, hdd, if_true, List.foldl_cons]
    exact ih text _ (fun c hc => hd c (List.mem_cons_of_mem _ hc)) ht

/-- A digit followed by the digits `scanDigits` reads is a numeral whose value
is the accumulated number. -/
theorem scanDigits_cons_spec (c : Char) (cs : List Char) (hc : isdigit c = true) :
    ∃ ds : List Char, c :: cs = (c :: ds) ++ (scanDigits (c :: cs) 0).2 ∧
      (c :: ds).all isdigit = true ∧ (scanDigits (c :: cs) 0).1 = digitsValue (c :: ds) := by
  obtain ⟨ds, hds, hall, hval⟩ := scanDigits_spec cs (10 * 0 + digitVal c)
  refine ⟨ds, ?_, ?_, ?_⟩
  · simp only [scanDigits, hc, if_true, List.cons_append]
    rw [← hds]
  · simp only [List.all_cons, hc, Bool.true_and]
    exact List.all_eq_true.mpr hall
  · simp only [scanDigits, hc, if_true, digitsValue, List.foldl_cons]
    exact hval

/-- A successful conversion has read white space followed by the longest
decimal numeral, which denotes the value returned. -/
theorem scanInteger_ok {inp rest : List Char} {v : Int}
    (h : scanInteger inp = ScanItem.ok v rest) :
    ∃ ws numeral : List Char, inp = ws ++ numeral ++ rest ∧
      (∀ x, x ∈ ws → isspace x = true) ∧ decimalValue numeral = some v ∧
      beginsWith isdigit rest = false := by
  obtain ⟨ws, hws, hall⟩ := skipSpace_split inp
  unfold scanInteger at h
  cases hs : skipSpace inp with
  | nil => simp [hs] at h
  | cons c cs =>
    rw [hs] at h hws
    simp only at h
    by_cases hminus : c = '-'
    · simp only [hminus, if_true] at h
      cases cs with
      | nil => simp at h
      | cons c1 cs1 =>
        simp only at h
        by_cases hd : isdigit c1 = true
        · simp only [hd, if_true, ScanItem.ok.injEq] at h
          obtain ⟨ds, hds, hdall, hdval⟩ := scanDigits_cons_spec c1 cs1 hd
          refine ⟨ws, '-' :: c1 :: ds, ?_, hall, ?_, h.2 ▸ beginsWith_scanDigits _ _⟩
          · rw [hws, hminus, hds, ← h.2]
            simp
          · simp only [decimalValue, if_true, hdall, ne_eq, reduceCtorEq, not_false_eq_true,
              and_self]
            rw [← h.1, hdval]
        · simp [hd] at h
    · by_cases hplus : c = '+'
      · simp only [hplus, if_true, show ¬ ('+' = '-') by decide, if_false] at h
        cases cs with
        | nil => simp at h
        | cons c1 cs1 =>
          simp only at h
          by_cases hd : isdigit c1 = true
          · simp only [hd, if_true, ScanItem.ok.injEq] at h
            obtain ⟨ds, hds, hdall, hdval⟩ := scanDigits_cons_spec c1 cs1 hd
            refine ⟨ws, '+' :: c1 :: ds, ?_, hall, ?_, h.2 ▸ beginsWith_scanDigits _ _⟩
            · rw [hws, hplus, hds, ← h.2]
              simp
            · simp only [decimalValue, show ¬ ('+' = '-') by decide, if_false, if_true, hdall,
                ne_eq, reduceCtorEq, not_false_eq_true, and_self]
              rw [← h.1, hdval]
          · simp [hd] at h
      · simp only [hminus, hplus, if_false] at h
        by_cases hd : isdigit c = true
        · simp only [hd, if_true, ScanItem.ok.injEq] at h
          obtain ⟨ds, hds, hdall, hdval⟩ := scanDigits_cons_spec c cs hd
          refine ⟨ws, c :: ds, ?_, hall, ?_, h.2 ▸ beginsWith_scanDigits _ _⟩
          · rw [hws, hds, ← h.2]
            simp
          · simp only [decimalValue, hminus, hplus, if_false, hdall, if_true]
            rw [← h.1, hdval]
        · simp [hd] at h

theorem scanInteger_minus (c1 : Char) (cs : List Char) (hc1 : isdigit c1 = true) :
    scanInteger ('-' :: c1 :: cs)
      = ScanItem.ok (-((scanDigits (c1 :: cs) 0).1 : Int)) (scanDigits (c1 :: cs) 0).2 := by
  simp [scanInteger, skipSpace, show isspace '-' = false by decide, hc1]

theorem scanInteger_plus (c1 : Char) (cs : List Char) (hc1 : isdigit c1 = true) :
    scanInteger ('+' :: c1 :: cs)
      = ScanItem.ok ((scanDigits (c1 :: cs) 0).1 : Int) (scanDigits (c1 :: cs) 0).2 := by
  simp [scanInteger, skipSpace, show isspace '+' = false by decide, hc1]

theorem scanInteger_digit (c : Char) (cs : List Char) (hc : isdigit c = true) :
    scanInteger (c :: cs)
      = ScanItem.ok ((scanDigits (c :: cs) 0).1 : Int) (scanDigits (c :: cs) 0).2 := by
  have hsp : isspace c = false := isspace_eq_false_of_isdigit hc
  have h1 : c ≠ '-' := isdigit_ne_minus hc
  have h2 : c ≠ '+' := isdigit_ne_plus hc
  simp [scanInteger, skipSpace, hsp, h1, h2, hc]

/-- The sign and digits of a numeral, read by `scanInteger` when no white space
precedes them. -/
theorem scanInteger_numeral {numeral text : List Char} {v : Int}
    (hval : decimalValue numeral = some v) (ht : beginsWith isdigit text = false) :
    scanInteger (numeral ++ text) = ScanItem.ok v text := by
  cases numeral with
  | nil => simp [decimalValue] at hval
  | cons c ds =>
    simp only [decimalValue] at hval
    by_cases hminus : c = '-'
    · subst hminus
      simp only [if_true] at hval
      split at hval
      · next hd =>
        obtain ⟨hne, hall⟩ := hd
        cases ds with
        | nil => exact absurd rfl hne
        | cons c1 ds1 =>
          have hdig : ∀ x, x ∈ c1 :: ds1 → isdigit x = true := List.all_eq_true.mp hall
          have hc1 : isdigit c1 = true := hdig c1 (by simp)
          have hscan := scanDigits_append (c1 :: ds1) text 0 hdig ht
          simp only [Option.some.injEq] at hval
          show scanInteger ('-' :: c1 :: (ds1 ++ text)) = ScanItem.ok v text
          rw [scanInteger_minus _ _ hc1]
          rw [show c1 :: (ds1 ++ text) = (c1 :: ds1) ++ text from rfl, hscan, ← hval]
          rfl
      · simp at hval
    · by_cases hplus : c = '+'
      · subst hplus
        simp only [hminus, if_false, if_true] at hval
        split at hval
        · next hd =>
          obtain ⟨hne, hall⟩ := hd
          cases ds with
          | nil => exact absurd rfl hne
          | cons c1 ds1 =>
            have hdig : ∀ x, x ∈ c1 :: ds1 → isdigit x = true := List.all_eq_true.mp hall
            have hc1 : isdigit c1 = true := hdig c1 (by simp)
            have hscan := scanDigits_append (c1 :: ds1) text 0 hdig ht
            simp only [Option.some.injEq] at hval
            show scanInteger ('+' :: c1 :: (ds1 ++ text)) = ScanItem.ok v text
            rw [scanInteger_plus _ _ hc1]
            rw [show c1 :: (ds1 ++ text) = (c1 :: ds1) ++ text from rfl, hscan, ← hval]
            rfl
        · simp at hval
      · simp only [hminus, hplus, if_false] at hval
        split at hval
        · next hall =>
          have hdig : ∀ x, x ∈ c :: ds → isdigit x = true := List.all_eq_true.mp hall
          have hc : isdigit c = true := hdig c (by simp)
          have hscan := scanDigits_append (c :: ds) text 0 hdig ht
          simp only [Option.some.injEq] at hval
          show scanInteger (c :: (ds ++ text)) = ScanItem.ok v text
          rw [scanInteger_digit _ _ hc]
          rw [show c :: (ds ++ text) = (c :: ds) ++ text from rfl, hscan, ← hval]
          rfl
        · simp at hval

theorem skipSpace_numeral {numeral : List Char} {v : Int} (text : List Char)
    (hval : decimalValue numeral = some v) :
    skipSpace (numeral ++ text) = numeral ++ text := by
  apply skipSpace_eq_self
  cases numeral with
  | nil => simp [decimalValue] at hval
  | cons c ds =>
    simp only [decimalValue] at hval
    simp only [List.cons_append, beginsWith]
    by_cases hminus : c = '-'
    · subst hminus
      decide
    · by_cases hplus : c = '+'
      · subst hplus
        decide
      · simp only [hminus, hplus, if_false] at hval
        split at hval
        · next hall =>
          exact isspace_eq_false_of_isdigit (List.all_eq_true.mp hall c (by simp))
        · simp at hval

/-- Completeness of one conversion: white space, a numeral and a text that
does not begin with a digit are read as the value of the numeral, leaving the
text. -/
theorem scanInteger_complete {ws numeral text : List Char} {v : Int}
    (hws : ∀ x, x ∈ ws → isspace x = true) (hval : decimalValue numeral = some v)
    (ht : beginsWith isdigit text = false) :
    scanInteger (ws ++ numeral ++ text) = ScanItem.ok v text := by
  have h1 := scanInteger_numeral hval ht
  have h2 : skipSpace (ws ++ numeral ++ text) = skipSpace (numeral ++ text) := by
    rw [List.append_assoc]
    exact skipSpace_append_space _ hws
  unfold scanInteger at h1 ⊢
  rw [h2]
  exact h1

theorem scanReturn_cases (b : Bool) (stored : List Int) :
    scanReturn b stored = stored.length ∨ (scanReturn b stored = -1 ∧ stored = []) := by
  unfold scanReturn
  cases b <;> cases stored <;> simp

/-- The values `sscanf_s` has stored extend those stored before by at most one
value per conversion, and its return value is their number, or `EOF` when
there is none. -/
theorem scanDirectives_bounds (crt : CRuntime) :
    ∀ (fs : List Directive) (inp : List Char) (stored : List Int),
      (∃ extra : List Int, (scanDirectives crt fs inp stored).2 = stored ++ extra ∧
        extra.length ≤ convCount fs) ∧
      ((scanDirectives crt fs inp stored).1 = (scanDirectives crt fs inp stored).2.length ∨
       ((scanDirectives crt fs inp stored).1 = -1 ∧
        (scanDirectives crt fs inp stored).2 = [])) := by
  intro fs
  induction fs with
  | nil =>
    intro inp stored
    exact ⟨⟨[], by simp [scanDirectives], by simp⟩, by
      simpa [scanDirectives] using scanReturn_cases false stored⟩
  | cons f fs ih =>
    intro inp stored
    cases f with
    | lit c =>
      by_cases hc : isspace c = true
      · simp only [scanDirectives, hc, if_true, convCount]
        exact ih (skipSpace inp) stored
      · cases inp with
        | nil =>
          simp only [scanDirectives, hc, if_false, convCount, Bool.false_eq_true]
          exact ⟨⟨[], by simp, by simp⟩, scanReturn_cases true stored⟩
        | cons x rest =>
          by_cases hx : x = c
          · simp only [scanDirectives, hc, if_false, convCount, hx, if_true,
              Bool.false_eq_true]
            exact ih rest stored
          · simp only [scanDirectives, hc, if_false, convCount, hx, Bool.false_eq_true]
            exact ⟨⟨[], by simp, by simp⟩, scanReturn_cases false stored⟩
    | d =>
      cases hi : scanInteger inp with
      | ok v rest =>
        simp only [scanDirectives, hi, convCount]
        obtain ⟨⟨extra, hextra, hlen⟩, hret⟩ := ih rest (stored ++ [crt.storeInt32 v])
        refine ⟨⟨crt.storeInt32 v :: extra, ?_, ?_⟩, hret⟩
        · rw [hextra]
          simp
        · simp only [List.length_cons]
          omega
      | matchingFailure =>
        simp only [scanDirectives, hi, convCount]
        exact ⟨⟨[], by simp, by simp⟩, scanReturn_cases false stored⟩
      | inputFailure =>
        simp only [scanDirectives, hi, convCount]
        exact ⟨⟨[], by simp, by simp⟩, scanReturn_cases true stored⟩
    | lld =>
      cases hi : scanInteger inp with
      | ok v rest =>
        simp only [scanDirectives, hi, convCount]
        obtain ⟨⟨extra, hextra, hlen⟩, hret⟩ := ih rest (stored ++ [crt.storeInt64 v])
        refine ⟨⟨crt.storeInt64 v :: extra, ?_, ?_⟩, hret⟩
        · rw [hextra]
          simp
        · simp only [List.length_cons]
          omega
      | matchingFailure =>
        simp only [scanDirectives, hi, convCount]
        exact ⟨⟨[], by simp, by simp⟩, scanReturn_cases false stored⟩
      | inputFailure =>
        simp only [scanDirectives, hi, convCount]
        exact ⟨⟨[], by simp, by simp⟩, scanReturn_cases true stored⟩

/-! ### Reading a derivation of `ScanMatch` backwards -/

theorem ScanMatch.nil_inv {inp rest : List Char} {vals : List Int}
    (h : ScanMatch [] inp rest vals) : rest = inp ∧ vals = [] := by
  cases h
  exact ⟨rfl, rfl⟩

theorem ScanMatch.space_inv {c : Char} {fs : List Directive} {inp rest : List Char}
    {vals : List Int} (h : ScanMatch (Directive.lit c :: fs) inp rest vals)
    (hc : isspace c = true) : ScanMatch fs (skipSpace inp) rest vals := by
  cases h with
  | space _ _ ws text _ _ _ hws ht hm =>
    rw [skipSpace_append_space text hws, skipSpace_eq_self ht]
    exact hm
  | char _ _ text _ _ hc1 _ => rw [hc] at hc1; exact absurd hc1 (by decide)

theorem ScanMatch.char_inv {c : Char} {fs : List Directive} {inp rest : List Char}
    {vals : List Int} (h : ScanMatch (Directive.lit c :: fs) inp rest vals)
    (hc : isspace c = false) : ∃ text : List Char, inp = c :: text ∧ ScanMatch fs text rest vals := by
  cases h with
  | space _ _ ws text _ _ hc1 _ _ _ => rw [hc] at hc1; exact absurd hc1 (by decide)
  | char _ _ text _ _ _ hm => exact ⟨text, rfl, hm⟩

theorem ScanMatch.d_inv {fs : List Directive} {inp rest : List Char} {vals : List Int}
    (h : ScanMatch (Directive.d :: fs) inp rest vals) :
    ∃ (v : Int) (text : List Char) (vals1 : List Int),
      scanInteger inp = ScanItem.ok v text ∧ vals = v :: vals1 ∧ ScanMatch fs text rest vals1 := by
  cases h with
  | int _ ws numeral text _ v vals1 hws hval ht hm =>
    exact ⟨v, text, vals1, scanInteger_complete hws hval ht, rfl, hm⟩

theorem ScanMatch.lld_inv {fs : List Directive} {inp rest : List Char} {vals : List Int}
    (h : ScanMatch (Directive.lld :: fs) inp rest vals) :
    ∃ (v : Int) (text : List Char) (vals1 : List Int),
      scanInteger inp = ScanItem.ok v text ∧ vals = v :: vals1 ∧ ScanMatch fs text rest vals1 := by
  cases h with
  | longlong _ ws numeral text _ v vals1 hws hval ht hm =>
    exact ⟨v, text, vals1, scanInteger_complete hws hval ht, rfl, hm⟩

/-- A text is read by a format in one way only: the text left and the
integers read are determined by the format and the input. -/
theorem ScanMatch.deterministic :
    ∀ (fs : List Directive) (inp rest1 rest2 : List Char) (vals1 vals2 : List Int),
      ScanMatch fs inp rest1 vals1 → ScanMatch fs inp rest2 vals2 →
      rest1 = rest2 ∧ vals1 = vals2 := by
  intro fs
  induction fs with
  | nil =>
    intro inp rest1 rest2 vals1 vals2 h1 h2
    obtain ⟨r1, v1⟩ := h1.nil_inv
    obtain ⟨r2, v2⟩ := h2.nil_inv
    exact ⟨r1.trans r2.symm, v1.trans v2.symm⟩
  | cons f fs ih =>
    intro inp rest1 rest2 vals1 vals2 h1 h2
    cases f with
    | lit c =>
      cases hc : isspace c with
      | true => exact ih _ _ _ _ _ (h1.space_inv hc) (h2.space_inv hc)
      | false =>
        obtain ⟨t1, e1, m1⟩ := h1.char_inv hc
        obtain ⟨t2, e2, m2⟩ := h2.char_inv hc
        have ht : t1 = t2 := by
          rw [e1] at e2
          exact (List.cons.inj e2).2
        subst ht
        exact ih _ _ _ _ _ m1 m2
    | d =>
      obtain ⟨v1, t1, w1, s1, e1, m1⟩ := h1.d_inv
      obtain ⟨v2, t2, w2, s2, e2, m2⟩ := h2.d_inv
      rw [s1] at s2
      simp only [ScanItem.ok.injEq] at s2
      obtain ⟨hv, ht⟩ := s2
      subst hv ht
      obtain ⟨hr, hw⟩ := ih _ _ _ _ _ m1 m2
      exact ⟨hr, by rw [e1, e2, hw]⟩
    | lld =>
      obtain ⟨v1, t1, w1, s1, e1, m1⟩ := h1.lld_inv
      obtain ⟨v2, t2, w2, s2, e2, m2⟩ := h2.lld_inv
      rw [s1] at s2
      simp only [ScanItem.ok.injEq] at s2
      obtain ⟨hv, ht⟩ := s2
      subst hv ht
      obtain ⟨hr, hw⟩ := ih _ _ _ _ _ m1 m2
      exact ⟨hr, by rw [e1, e2, hw]⟩

theorem ScanMatch.length_vals {fs : List Directive} {inp rest : List Char} {vals : List Int}
    (h : ScanMatch fs inp rest vals) : vals.length = convCount fs := by
  induction h with
  | done => rfl
  | space c1 fs ws text rest vals _ _ _ _ ih => simpa [convCount] using ih
  | char c1 fs text rest vals _ _ ih => simpa [convCount] using ih
  | int fs ws numeral text rest v vals _ _ _ _ ih => simp [convCount, ih]
  | longlong fs ws numeral text rest v vals _ _ _ _ ih => simp [convCount, ih]

theorem ScanMatch.length_storedValues (crt : CRuntime) {fs : List Directive}
    {inp rest : List Char} {vals : List Int} (h : ScanMatch fs inp rest vals) :
    (storedValues crt fs vals).length = vals.length := by
  induction h with
  | done => simp [storedValues]
  | space c1 fs ws text rest vals _ _ _ _ ih => simpa [storedValues] using ih
  | char c1 fs text rest vals _ _ ih => simpa [storedValues] using ih
  | int fs ws numeral text rest v vals _ _ _ _ ih => simp [storedValues, ih]
  | longlong fs ws numeral text rest v vals _ _ _ _ ih => simp [storedValues, ih]

/-- The text a format leaves is the end of the input: the format has read a
text the input starts with. -/
theorem ScanMatch.suffix {fs : List Directive} {inp rest : List Char} {vals : List Int}
    (h : ScanMatch fs inp rest vals) : ∃ consumed : List Char, inp = consumed ++ rest := by
  induction h with
  | done inp => exact ⟨[], rfl⟩
  | space c1 fs ws text rest vals _ _ _ _ ih =>
    obtain ⟨consumed, hc⟩ := ih
    exact ⟨ws ++ consumed, by rw [hc, List.append_assoc]⟩
  | char c1 fs text rest vals _ _ ih =>
    obtain ⟨consumed, hc⟩ := ih
    exact ⟨c1 :: consumed, by rw [hc]; rfl⟩
  | int fs ws numeral text rest v vals _ _ _ _ ih =>
    obtain ⟨consumed, hc⟩ := ih
    exact ⟨ws ++ numeral ++ consumed, by rw [hc]; simp⟩
  | longlong fs ws numeral text rest v vals _ _ _ _ ih =>
    obtain ⟨consumed, hc⟩ := ih
    exact ⟨ws ++ numeral ++ consumed, by rw [hc]; simp⟩

/-- A white-space directive reads any text: it is never where a scan stops. -/
theorem ScanMatch.space_any (c : Char) (hc : isspace c = true) (inp : List Char) :
    ScanMatch [Directive.lit c] inp (skipSpace inp) [] := by
  obtain ⟨ws, hws, hall⟩ := skipSpace_split inp
  have := ScanMatch.space c [] ws (skipSpace inp) (skipSpace inp) [] hc hall
    (beginsWith_skipSpace inp) (ScanMatch.done _)
  rw [← hws] at this
  exact this

/-- A text read by a format is read by the format followed by a white-space
directive, which then reads the white space that follows. -/
theorem ScanMatch.trailing_space {fs : List Directive} {inp rest : List Char}
    {vals : List Int} (c : Char) (hc : isspace c = true) (h : ScanMatch fs inp rest vals) :
    ScanMatch (fs ++ [Directive.lit c]) inp (skipSpace rest) vals := by
  induction h with
  | done inp => exact ScanMatch.space_any c hc inp
  | space c1 fs ws text rest vals h1 h2 h3 _ ih =>
    exact ScanMatch.space c1 _ ws text _ vals h1 h2 h3 ih
  | char c1 fs text rest vals h1 _ ih => exact ScanMatch.char c1 _ text _ vals h1 ih
  | int fs ws numeral text rest v vals h1 h2 h3 _ ih =>
    exact ScanMatch.int _ ws numeral text _ v vals h1 h2 h3 ih
  | longlong fs ws numeral text rest v vals h1 h2 h3 _ ih =>
    exact ScanMatch.longlong _ ws numeral text _ v vals h1 h2 h3 ih

/-! ### The engine does what the grammar says, and nothing else -/

/-- Completeness of the scan engine: on an input whose start the directives
`fs1` read, the engine goes through `fs1`, stores the values of the integers
read and continues with the following directives on the text left. -/
theorem scanDirectives_through (crt : CRuntime) {fs1 : List Directive} {inp rest : List Char}
    {vals : List Int} (h : ScanMatch fs1 inp rest vals) :
    ∀ (fs2 : List Directive) (stored : List Int),
      scanDirectives crt (fs1 ++ fs2) inp stored
        = scanDirectives crt fs2 rest (stored ++ storedValues crt fs1 vals) := by
  induction h with
  | done inp => intro fs2 stored; simp [storedValues]
  | space c fs ws text rest vals hc hws ht _ ih =>
    intro fs2 stored
    simp only [List.cons_append, scanDirectives, hc, if_true, skipSpace_append_space text hws,
      skipSpace_eq_self ht, storedValues]
    exact ih fs2 stored
  | char c fs text rest vals hc _ ih =>
    intro fs2 stored
    simp only [List.cons_append, scanDirectives, hc, Bool.false_eq_true, if_false, if_true,
      storedValues]
    exact ih fs2 stored
  | int fs ws numeral text rest v vals hws hval ht _ ih =>
    intro fs2 stored
    simp only [List.cons_append, scanDirectives, scanInteger_complete hws hval ht, storedValues]
    have := ih fs2 (stored ++ [crt.storeInt32 v])
    simp only [List.append_assoc, List.singleton_append] at this
    exact this
  | longlong fs ws numeral text rest v vals hws hval ht _ ih =>
    intro fs2 stored
    simp only [List.cons_append, scanDirectives, scanInteger_complete hws hval ht, storedValues]
    have := ih fs2 (stored ++ [crt.storeInt64 v])
    simp only [List.append_assoc, List.singleton_append] at this
    exact this

/-- At a directive that cannot read the input the engine stops and stores
nothing more. -/
theorem scanDirectives_stuck (crt : CRuntime) {f : Directive} (fs : List Directive)
    {inp : List Char} (stored : List Int) (h : ScanStuck f inp) :
    (scanDirectives crt (f :: fs) inp stored).2 = stored := by
  cases f with
  | lit c =>
    cases hc : isspace c with
    | true => exact absurd (ScanMatch.space_any c hc inp) (h _ _)
    | false =>
      cases inp with
      | nil => simp [scanDirectives, hc]
      | cons x rest =>
        by_cases hx : x = c
        · subst hx
          exact absurd (ScanMatch.char x [] rest rest [] hc (ScanMatch.done rest)) (h _ _)
        · simp [scanDirectives, hc, hx]
  | d =>
    cases hi : scanInteger inp with
    | ok v rest =>
      obtain ⟨ws, numeral, hsplit, hall, hval, hrest⟩ := scanInteger_ok hi
      have := ScanMatch.int [] ws numeral rest rest v [] hall hval hrest (ScanMatch.done rest)
      rw [← hsplit] at this
      exact absurd this (h _ _)
    | matchingFailure => simp [scanDirectives, hi]
    | inputFailure => simp [scanDirectives, hi]
  | lld =>
    cases hi : scanInteger inp with
    | ok v rest =>
      obtain ⟨ws, numeral, hsplit, hall, hval, hrest⟩ := scanInteger_ok hi
      have := ScanMatch.longlong [] ws numeral rest rest v [] hall hval hrest
        (ScanMatch.done rest)
      rw [← hsplit] at this
      exact absurd this (h _ _)
    | matchingFailure => simp [scanDirectives, hi]
    | inputFailure => simp [scanDirectives, hi]

/-- When the directives `fs1` read the start of the input and the next
directive cannot read what is left, the engine has stored exactly the values
of the integers `fs1` read. -/
theorem scanDirectives_of_stuck (crt : CRuntime) {fs fs1 fs2 : List Directive} {f : Directive}
    {inp rest : List Char} {vals : List Int} (stored : List Int)
    (hsplit : fs = fs1 ++ f :: fs2) (hmatch : ScanMatch fs1 inp rest vals)
    (hstuck : ScanStuck f rest) :
    (scanDirectives crt fs inp stored).2 = stored ++ storedValues crt fs1 vals := by
  rw [hsplit, scanDirectives_through crt hmatch]
  exact scanDirectives_stuck crt fs2 _ hstuck

/-- When the whole format reads the start of the input, the engine has stored
the values of all the integers read and returns their number. -/
theorem scanDirectives_of_match (crt : CRuntime) {fs : List Directive} {inp rest : List Char}
    {vals : List Int} (stored : List Int) (hmatch : ScanMatch fs inp rest vals) :
    scanDirectives crt fs inp stored
      = (((stored ++ storedValues crt fs vals).length : Int),
         stored ++ storedValues crt fs vals) := by
  have := scanDirectives_through crt hmatch [] stored
  rw [List.append_nil] at this
  rw [this]
  simp [scanDirectives, scanReturn]

theorem ScanOutcome.cons (crt : CRuntime) (g : Directive) {fs : List Directive}
    {inp inp1 : List Char} {stored sv out : List Int} (pre : List Int)
    (hm : ∀ (fs1 : List Directive) (rest : List Char) (vals : List Int),
      ScanMatch fs1 inp1 rest vals → ScanMatch (g :: fs1) inp rest (pre ++ vals))
    (hs : ∀ (fs1 : List Directive) (vals : List Int),
      storedValues crt (g :: fs1) (pre ++ vals) = sv ++ storedValues crt fs1 vals)
    (h : ScanOutcome crt fs inp1 (stored ++ sv) out) : ScanOutcome crt (g :: fs) inp stored out := by
  rcases h with ⟨rest, vals, hmatch, hout⟩ | ⟨fs1, f, fs2, rest, vals, hsplit, hmatch, hstuck, hout⟩
  · exact Or.inl ⟨rest, pre ++ vals, hm fs rest vals hmatch, by
      rw [hout, hs, List.append_assoc]⟩
  · exact Or.inr ⟨g :: fs1, f, fs2, rest, pre ++ vals, by rw [hsplit]; rfl,
      hm fs1 rest vals hmatch, hstuck, by rw [hout, hs, List.append_assoc]⟩

theorem ScanOutcome.stop (crt : CRuntime) {f : Directive} (fs : List Directive)
    {inp : List Char} (stored : List Int) (h : ScanStuck f inp) :
    ScanOutcome crt (f :: fs) inp stored stored :=
  Or.inr ⟨[], f, fs, inp, [], rfl, ScanMatch.done inp, h, by simp [storedValues]⟩

/-- Soundness of the scan engine: what it leaves stored is what the grammar
says, either for the whole format or for the directives before the one at
which the input stops matching. -/
theorem scanDirectives_sound (crt : CRuntime) :
    ∀ (fs : List Directive) (inp : List Char) (stored : List Int),
      ScanOutcome crt fs inp stored (scanDirectives crt fs inp stored).2 := by
  intro fs
  induction fs with
  | nil =>
    intro inp stored
    exact Or.inl ⟨inp, [], ScanMatch.done inp, by simp [scanDirectives, storedValues]⟩
  | cons f fs ih =>
    intro inp stored
    cases f with
    | lit c =>
      cases hc : isspace c with
      | true =>
        simp only [scanDirectives, hc, if_true]
        obtain ⟨ws, hws, hall⟩ := skipSpace_split inp
        refine ScanOutcome.cons crt (Directive.lit c) [] ?_ ?_
          (by rw [List.append_nil]; exact ih (skipSpace inp) stored)
        · intro fs1 rest vals hmatch
          have := ScanMatch.space c fs1 ws (skipSpace inp) rest vals hc hall
            (beginsWith_skipSpace inp) hmatch
          rw [← hws] at this
          exact this
        · intro fs1 vals
          simp [storedValues]
      | false =>
        cases inp with
        | nil =>
          simp only [scanDirectives, hc, Bool.false_eq_true, if_false]
          apply ScanOutcome.stop
          intro rest vals h
          obtain ⟨text, htext, -⟩ := h.char_inv hc
          cases htext
        | cons x rest0 =>
          by_cases hx : x = c
          · subst hx
            simp only [scanDirectives, hc, Bool.false_eq_true, if_false, if_true]
            refine ScanOutcome.cons crt (Directive.lit x) [] ?_ ?_
              (by rw [List.append_nil]; exact ih rest0 stored)
            · intro fs1 rest vals hmatch
              exact ScanMatch.char x fs1 rest0 rest vals hc hmatch
            · intro fs1 vals
              simp [storedValues]
          · simp only [scanDirectives, hc, Bool.false_eq_true, if_false, hx]
            apply ScanOutcome.stop
            intro rest vals h
            obtain ⟨text, htext, -⟩ := h.char_inv hc
            exact hx (List.cons.inj htext).1
    | d =>
      cases hi : scanInteger inp with
      | ok v rest0 =>
        simp only [scanDirectives, hi]
        obtain ⟨ws, numeral, hsplit, hall, hval, hrest⟩ := scanInteger_ok hi
        refine ScanOutcome.cons crt Directive.d [v] ?_ ?_
          (ih rest0 (stored ++ [crt.storeInt32 v]))
        · intro fs1 rest vals hmatch
          have := ScanMatch.int fs1 ws numeral rest0 rest v vals hall hval hrest hmatch
          rw [← hsplit] at this
          exact this
        · intro fs1 vals
          simp [storedValues]
      | matchingFailure =>
        simp only [scanDirectives, hi]
        apply ScanOutcome.stop
        intro rest vals h
        obtain ⟨v, text, vals1, hs, -, -⟩ := h.d_inv
        rw [hi] at hs
        cases hs
      | inputFailure =>
        simp only [scanDirectives, hi]
        apply ScanOutcome.stop
        intro rest vals h
        obtain ⟨v, text, vals1, hs, -, -⟩ := h.d_inv
        rw [hi] at hs
        cases hs
    | lld =>
      cases hi : scanInteger inp with
      | ok v rest0 =>
        simp only [scanDirectives, hi]
        obtain ⟨ws, numeral, hsplit, hall, hval, hrest⟩ := scanInteger_ok hi
        refine ScanOutcome.cons crt Directive.lld [v] ?_ ?_
          (ih rest0 (stored ++ [crt.storeInt64 v]))
        · intro fs1 rest vals hmatch
          have := ScanMatch.longlong fs1 ws numeral rest0 rest v vals hall hval hrest hmatch
          rw [← hsplit] at this
          exact this
        · intro fs1 vals
          simp [storedValues]
      | matchingFailure =>
        simp only [scanDirectives, hi]
        apply ScanOutcome.stop
        intro rest vals h
        obtain ⟨v, text, vals1, hs, -, -⟩ := h.lld_inv
        rw [hi] at hs
        cases hs
      | inputFailure =>
        simp only [scanDirectives, hi]
        apply ScanOutcome.stop
        intro rest vals h
        obtain ⟨v, text, vals1, hs, -, -⟩ := h.lld_inv
        rw [hi] at hs
        cases hs

/-- A white-space directive at the end of a format changes neither the return
value nor the values stored. -/
theorem scanDirectives_trailing_space (crt : CRuntime) (c : Char) (hc : isspace c = true) :
    ∀ (fs : List Directive) (inp : List Char) (stored : List Int),
      scanDirectives crt (fs ++ [Directive.lit c]) inp stored
        = scanDirectives crt fs inp stored := by
  intro fs
  induction fs with
  | nil => intro inp stored; simp [scanDirectives, hc]
  | cons f fs ih =>
    intro inp stored
    cases f with
    | lit x =>
      by_cases hx : isspace x = true
      · simp only [List.cons_append, scanDirectives, hx, if_true]
        exact ih _ _
      · cases inp with
        | nil => simp [scanDirectives, hx]
        | cons y rest =>
          by_cases hy : y = x
          · simp only [List.cons_append, scanDirectives, hx, if_false, hy, if_true,
              Bool.false_eq_true]
            exact ih _ _
          · simp [scanDirectives, hx, hy]
    | d =>
      cases hi : scanInteger inp with
      | ok v rest =>
        simp only [List.cons_append, scanDirectives, hi]
        exact ih _ _
      | matchingFailure => simp [scanDirectives, hi]
      | inputFailure => simp [scanDirectives, hi]
    | lld =>
      cases hi : scanInteger inp with
      | ok v rest =>
        simp only [List.cons_append, scanDirectives, hi]
        exact ih _ _
      | matchingFailure => simp [scanDirectives, hi]
      | inputFailure => simp [scanDirectives, hi]

theorem convCount_append (a b : List Directive) :
    convCount (a ++ b) = convCount a + convCount b := by
  induction a with
  | nil => simp [convCount]
  | cons f fs ih =>
    rw [List.cons_append]
    cases f <;> simp only [convCount, ih] <;> omega

theorem endsWithConversion_cons {f : Directive} {fs : List Directive}
    (h : endsWithConversion (f :: fs) = true) : endsWithConversion fs = true := by
  cases fs with
  | nil => rfl
  | cons g gs => simpa [endsWithConversion] using h

theorem convCount_pos_of_endsWithConversion :
    ∀ (fs : List Directive), fs ≠ [] → endsWithConversion fs = true → 1 ≤ convCount fs := by
  intro fs
  induction fs with
  | nil => intro h; exact absurd rfl h
  | cons f fs ih =>
    intro _ hend
    cases fs with
    | nil =>
      cases f with
      | lit c => simp [endsWithConversion] at hend
      | d => simp [convCount]
      | lld => simp [convCount]
    | cons g gs =>
      have := ih (by simp) (endsWithConversion_cons hend)
      cases f <;> simp only [convCount] <;> omega

theorem endsWithConversion_append (a : List Directive) (g : Directive) (gs : List Directive)
    (h : endsWithConversion (a ++ g :: gs) = true) : endsWithConversion (g :: gs) = true := by
  induction a with
  | nil => exact h
  | cons f fs ih =>
    apply ih
    cases hfs : fs ++ g :: gs with
    | nil => simp at hfs
    | cons x xs =>
      rw [List.cons_append, hfs] at h
      simpa [endsWithConversion] using h

/-! ## `LoadFromFile` -/

namespace MetricsSummary

set_option maxRecDepth 100000 in
theorem parseFormat_loadFormat : parseFormat loadFormat = loadBody ++ [Directive.lit '\n'] := by
  decide

set_option maxRecDepth 100000 in
theorem endsWithConversion_loadBody : endsWithConversion loadBody = true := by
  decide

set_option maxRecDepth 100000 in
theorem convCount_loadBody : convCount loadBody = 7 := by
  decide

set_option maxRecDepth 100000 in
theorem convCount_loadFormat : convCount (parseFormat loadFormat) = 7 := by
  decide

set_option maxRecDepth 100000 in
/-- The values `LoadFromFile` stores for seven integers read: three `int`,
then four `long long`. -/
theorem storedValues_loadFormat (crt : CRuntime) (v1 v2 v3 v4 v5 v6 v7 : Int) :
    storedValues crt (parseFormat loadFormat) [v1, v2, v3, v4, v5, v6, v7]
      = [crt.storeInt32 v1, crt.storeInt32 v2, crt.storeInt32 v3, crt.storeInt64 v4,
         crt.storeInt64 v5, crt.storeInt64 v6, crt.storeInt64 v7] := by
  rfl

/-- The scan of `LoadFromFile` is the scan of the directives up to the last
conversion. -/
theorem sscanf_s_loadFormat (crt : CRuntime) (buffer : List Char) :
    sscanf_s crt buffer loadFormat = scanDirectives crt loadBody buffer [] := by
  unfold sscanf_s
  rw [parseFormat_loadFormat]
  exact scanDirectives_trailing_space crt '\n' (by decide) loadBody buffer []

theorem tiered_storeArg (m : MetricsSummary) (i : Nat) (v : Int) :
    tiered (storeArg m i v) = tiered m := by
  unfold storeArg
  split <;> rfl

theorem tiered_storeArgs :
    ∀ (vals : List Int) (i : Nat) (m : MetricsSummary), tiered (storeArgs i vals m) = tiered m := by
  intro vals
  induction vals with
  | nil => intro i m; rfl
  | cons v vs ih =>
    intro i m
    simp only [storeArgs]
    rw [ih, tiered_storeArg]

/-- Storing at most seven values overwrites the first canonical fields, one per
value, and leaves the canonical fields after them as they were. -/
theorem canonical_storeArgs (vals : List Int) (m : MetricsSummary) (h : vals.length ≤ 7) :
    canonical (storeArgs 0 vals m) = vals ++ (canonical m).drop vals.length := by
  rcases vals with _ | ⟨a1, _ | ⟨a2, _ | ⟨a3, _ | ⟨a4, _ | ⟨a5, _ | ⟨a6, _ | ⟨a7, _ | ⟨a8, t⟩⟩⟩⟩⟩⟩⟩⟩
  · rfl
  · rfl
  · rfl
  · rfl
  · rfl
  · rfl
  · rfl
  · rfl
  · simp only [List.length_cons] at h
    omega

theorem storeInt32_of_fits (crt : CRuntime) {v : Int} (h : fitsInt32 v) :
    crt.storeInt32 v = v := by
  simp [CRuntime.storeInt32, h]

theorem storeInt64_of_fits (crt : CRuntime) {v : Int} (h : fitsInt64 v) :
    crt.storeInt64 v = v := by
  simp [CRuntime.storeInt64, h]

/-- The converse of the load success condition: on a content whose C string
the scan format reads, `LoadFromFile` returns true. -/
theorem LoadFromFile_true_of_match (crt : CRuntime) (content rest : List Char)
    (vals : List Int) (m : MetricsSummary)
    (h : ScanMatch (parseFormat loadFormat) (cString content) rest vals) :
    (LoadFromFile crt (some content) m).1 = true := by
  have hscan := scanDirectives_of_match crt [] h
  have hlen : (storedValues crt (parseFormat loadFormat) vals).length = 7 := by
    rw [h.length_storedValues crt, h.length_vals, convCount_loadFormat]
  simp only [LoadFromFile, sscanf_s, hscan, List.nil_append, hlen]
  rfl

/-- The scan of a failed load has stored fewer than seven values. -/
theorem stored_lt_seven_of_false (crt : CRuntime) (content : List Char) (m : MetricsSummary)
    (h : (LoadFromFile crt (some content) m).1 = false) :
    (scanDirectives crt (parseFormat loadFormat) (cString content) []).2.length < 7 := by
  simp only [LoadFromFile, sscanf_s, beq_eq_false_iff_ne, ne_eq] at h
  obtain ⟨⟨extra, hextra, hle⟩, hret⟩ :=
    scanDirectives_bounds crt (parseFormat loadFormat) (cString content) []
  rw [convCount_loadFormat] at hle
  rw [hextra, List.nil_append]
  rcases Nat.lt_or_ge extra.length 7 with hlt | hge
  · exact hlt
  · exfalso
    have h7 : extra.length = 7 := by omega
    rcases hret with hr | ⟨-, hr⟩
    · rw [hextra, List.nil_append, h7] at hr
      exact h (by exact_mod_cast hr)
    · rw [hextra, List.nil_append] at hr
      rw [hr] at h7
      simp at h7

/-- The scan of a successful load has stored seven values. -/
theorem stored_eq_seven_of_true (crt : CRuntime) (content : List Char) (m : MetricsSummary)
    (h : (LoadFromFile crt (some content) m).1 = true) :
    (scanDirectives crt loadBody (cString content) []).2.length = 7 := by
  simp only [LoadFromFile, sscanf_s_loadFormat, beq_iff_eq] at h
  obtain ⟨-, hret⟩ := scanDirectives_bounds crt loadBody (cString content) []
  rcases hret with hr | ⟨hr, -⟩
  · rw [h] at hr
    exact_mod_cast hr.symm
  · rw [h] at hr
    omega

end MetricsSummary

/-- C6 (amended): the load success condition.  `LoadFromFile` returns true
only if the file was read and exactly seven fields were parsed: the C string
of the content (the characters before the first NUL) starts with a text that
the scan format reads, namely the seven header names (a blank or newline of
the format standing for the longest run of white space, possibly empty), then
seven optionally signed decimal integers separated by commas, each optionally
preceded by white space and read to its last digit; what follows the seventh
integer is not looked at.  However the format reads the content, the integers
read are the same, and the seven canonical fields hold, in order, the values
stored for them, which are the integers themselves when they fit an `int`
(first three) or a `long long` (last four); the six tier fields are
unchanged. -/
theorem MetricsSummary.LoadFromFile_true_only_if (crt : CRuntime) (file : Option (List Char))
    (m : MetricsSummary) (h : (LoadFromFile crt file m).1 = true) :
    ∃ content : List Char,
      file = some content ∧
      (∃ (consumed rest : List Char) (v1 v2 v3 v4 v5 v6 v7 : Int),
        cString content = consumed ++ rest ∧
        ScanMatch (parseFormat loadFormat) (cString content) rest
          [v1, v2, v3, v4, v5, v6, v7]) ∧
      (∀ (rest : List Char) (v1 v2 v3 v4 v5 v6 v7 : Int),
        ScanMatch (parseFormat loadFormat) (cString content) rest
          [v1, v2, v3, v4, v5, v6, v7] →
        canonical (LoadFromFile crt file m).2
          = [crt.storeInt32 v1, crt.storeInt32 v2, crt.storeInt32 v3, crt.storeInt64 v4,
             crt.storeInt64 v5, crt.storeInt64 v6, crt.storeInt64 v7] ∧
        (fitsInt32 v1 ∧ fitsInt32 v2 ∧ fitsInt32 v3 ∧ fitsInt64 v4 ∧ fitsInt64 v5 ∧
          fitsInt64 v6 ∧ fitsInt64 v7 →
          canonical (LoadFromFile crt file m).2 = [v1, v2, v3, v4, v5, v6, v7])) ∧
      tiered (LoadFromFile crt file m).2 = tiered m := by
  cases file with
  | none => simp [LoadFromFile] at h
  | some content =>
    refine ⟨content, rfl, ?_, ?_, MetricsSummary.tiered_storeArgs _ _ _⟩
    · have hlen := MetricsSummary.stored_eq_seven_of_true crt content m h
      rcases scanDirectives_sound crt loadBody (cString content) [] with
        ⟨rest, vals, hmatch, hout⟩ | ⟨fs1, f, fs2, rest, vals, hsplit, hmatch, hstuck, hout⟩
      · have hvals : vals.length = 7 := by
          rw [hmatch.length_vals, MetricsSummary.convCount_loadBody]
        have hfull := ScanMatch.trailing_space '\n' (by decide) hmatch
        rw [← MetricsSummary.parseFormat_loadFormat] at hfull
        obtain ⟨consumed, hcons⟩ := hfull.suffix
        rcases vals with _ | ⟨v1, _ | ⟨v2, _ | ⟨v3, _ | ⟨v4, _ | ⟨v5, _ | ⟨v6, _ | ⟨v7, _ | ⟨v8, t⟩⟩⟩⟩⟩⟩⟩⟩ <;>
          simp only [List.length_cons, List.length_nil] at hvals <;> try omega
        exact ⟨consumed, _, v1, v2, v3, v4, v5, v6, v7, hcons, hfull⟩
      · exfalso
        rw [hout, List.nil_append, hmatch.length_storedValues crt, hmatch.length_vals] at hlen
        have hcount := convCount_append fs1 (f :: fs2)
        rw [← hsplit, MetricsSummary.convCount_loadBody] at hcount
        have hend := MetricsSummary.endsWithConversion_loadBody
        rw [hsplit] at hend
        have := convCount_pos_of_endsWithConversion (f :: fs2) (by simp)
          (endsWithConversion_append fs1 f fs2 hend)
        omega
    · intro rest v1 v2 v3 v4 v5 v6 v7 hmatch
      have hscan := scanDirectives_of_match crt [] hmatch
      rw [List.nil_append, MetricsSummary.storedValues_loadFormat] at hscan
      have hcanon : canonical (LoadFromFile crt (some content) m).2
          = [crt.storeInt32 v1, crt.storeInt32 v2, crt.storeInt32 v3, crt.storeInt64 v4,
             crt.storeInt64 v5, crt.storeInt64 v6, crt.storeInt64 v7] := by
        simp only [LoadFromFile, sscanf_s, hscan]
        rfl
      refine ⟨hcanon, ?_⟩
      rintro ⟨f1, f2, f3, f4, f5, f6, f7⟩
      rw [hcanon, MetricsSummary.storeInt32_of_fits crt f1, MetricsSummary.storeInt32_of_fits crt f2,
        MetricsSummary.storeInt32_of_fits crt f3, MetricsSummary.storeInt64_of_fits crt f4,
        MetricsSummary.storeInt64_of_fits crt f5, MetricsSummary.storeInt64_of_fits crt f6,
        MetricsSummary.storeInt64_of_fits crt f7]

/-- C7 (amended): the state after a failed load.  When `LoadFromFile` returns
false because the file cannot be opened or read, the target is unchanged.
Otherwise the scan has read the start of the content's C string with the
directives before some directive `f` of the format and stopped at `f`, which
cannot read what is left; wherever that is, fewer than seven integers were
read, the first canonical fields hold the values stored for them, one field
per integer in order, the canonical fields after them and the six tier fields
keep their values, and when no integer was read the target is unchanged. -/
theorem MetricsSummary.LoadFromFile_failure_state (crt : CRuntime) (file : Option (List Char))
    (m : MetricsSummary) (h : (LoadFromFile crt file m).1 = false) :
    (file = none → (LoadFromFile crt file m).2 = m) ∧
    ∀ content : List Char, file = some content →
      (∃ (fs1 : List Directive) (f : Directive) (fs2 : List Directive) (rest : List Char)
          (vals : List Int),
        parseFormat loadFormat = fs1 ++ f :: fs2 ∧
        ScanMatch fs1 (cString content) rest vals ∧ ScanStuck f rest) ∧
      (∀ (fs1 : List Directive) (f : Directive) (fs2 : List Directive) (rest : List Char)
          (vals : List Int),
        parseFormat loadFormat = fs1 ++ f :: fs2 →
        ScanMatch fs1 (cString content) rest vals → ScanStuck f rest →
        vals.length < 7 ∧
        (storedValues crt fs1 vals).length = vals.length ∧
        canonical (LoadFromFile crt file m).2
          = storedValues crt fs1 vals ++ (canonical m).drop vals.length ∧
        tiered (LoadFromFile crt file m).2 = tiered m ∧
        (vals = [] → (LoadFromFile crt file m).2 = m)) := by
  refine ⟨fun hnone => by subst hnone; rfl, ?_⟩
  intro content hfile
  subst hfile
  have hlen := MetricsSummary.stored_lt_seven_of_false crt content m h
  constructor
  · rcases scanDirectives_sound crt (parseFormat loadFormat) (cString content) [] with
      ⟨rest, vals, hmatch, hout⟩ | ⟨fs1, f, fs2, rest, vals, hsplit, hmatch, hstuck, -⟩
    · exfalso
      rw [hout, List.nil_append, hmatch.length_storedValues crt, hmatch.length_vals,
        MetricsSummary.convCount_loadFormat] at hlen
      omega
    · exact ⟨fs1, f, fs2, rest, vals, hsplit, hmatch, hstuck⟩
  · intro fs1 f fs2 rest vals hsplit hmatch hstuck
    have hout := scanDirectives_of_stuck crt [] hsplit hmatch hstuck
    rw [List.nil_append] at hout
    have hsv := hmatch.length_storedValues crt
    rw [hout, hsv] at hlen
    have hstate : (LoadFromFile crt (some content) m).2
        = storeArgs 0 (storedValues crt fs1 vals) m := by
      simp only [LoadFromFile, sscanf_s, hout]
    refine ⟨hlen, hsv, ?_, ?_, ?_⟩
    · rw [hstate, MetricsSummary.canonical_storeArgs _ m (by omega), hsv]
    · rw [hstate]
      exact MetricsSummary.tiered_storeArgs _ _ _
    · intro hnil
      rw [hstate]
      have : storedValues crt fs1 vals = [] := by
        apply List.eq_nil_of_length_eq_zero
        rw [hsv, hnil]
        rfl
      rw [this]
      rfl

/-! ## `LoadFromFile` on concrete files -/

namespace MetricsSummary

set_option maxRecDepth 100000 in
/-- The expected header with a data line of seven integers loads. -/
theorem LoadFromFile_sevenDataFile :
    LoadFromFile CRuntime.wrapping (some sevenDataFile) zero = (true, scenario) := by
  decide

set_option maxRecDepth 100000 in
/-- The expected header with a data line of two integers: the load fails after
having overwritten the first two fields. -/
theorem LoadFromFile_shortDataFile :
    LoadFromFile CRuntime.wrapping (some shortDataFile) zero
      = (false, { zero with SuccessfulCompiles := 1, FailingCompiles := 2 }) := by
  decide

set_option maxRecDepth 100000 in
/-- The expected header with the thirteen-integer data line of `SaveToFile`:
the load succeeds on the first seven integers. -/
theorem LoadFromFile_wideDataFile :
    LoadFromFile CRuntime.wrapping (some wideDataFile) zero
      = (true, { zero with
                 SuccessfulCompiles := 10, NumCodeBytes := 1, NumExecutedInstructions := 2048 }) := by
  decide

/-- A decimal numeral contains no comma. -/
theorem count_comma_of_decimalValue {t : List Char} {v : Int} (h : decimalValue t = some v) :
    t.count ',' = 0 := by
  rw [List.count_eq_zero]
  intro hmem
  cases t with
  | nil => simp at hmem
  | cons c ds =>
    simp only [decimalValue] at h
    by_cases hminus : c = '-'
    · subst hminus
      simp only [if_true] at h
      split at h
      · next hd =>
        rcases List.mem_cons.mp hmem with hm | hm
        · exact absurd hm (by decide)
        · exact isdigit_ne_comma (List.all_eq_true.mp hd.2 _ hm) rfl
      · simp at h
    · by_cases hplus : c = '+'
      · subst hplus
        simp only [hminus, if_false, if_true] at h
        split at h
        · next hd =>
          rcases List.mem_cons.mp hmem with hm | hm
          · exact absurd hm (by decide)
          · exact isdigit_ne_comma (List.all_eq_true.mp hd.2 _ hm) rfl
        · simp at h
      · simp only [hminus, hplus, if_false] at h
        split at h
        · next hd => exact isdigit_ne_comma (List.all_eq_true.mp hd _ hmem) rfl
        · simp at h

set_option maxRecDepth 100000 in
/-- The file with thirteen integers on its data line is not a header line
followed by a data line of seven comma-separated integers: seven integers are
separated by six commas, and the data line has twelve. -/
theorem wideDataFile_not_sevenField : ¬ ∃ vals : List Int, SevenFieldFile wideDataFile vals := by
  rintro ⟨vals, numerals, hlen, hmap, hcontent⟩
  have hnum : ∀ t, t ∈ numerals → t.count ',' = 0 := by
    intro t ht
    have hmem : decimalValue t ∈ numerals.map decimalValue := List.mem_map_of_mem _ ht
    rw [hmap] at hmem
    obtain ⟨v, -, hv⟩ := List.mem_map.mp hmem
    exact count_comma_of_decimalValue hv.symm
  rcases numerals with _ | ⟨t1, _ | ⟨t2, _ | ⟨t3, _ | ⟨t4, _ | ⟨t5, _ | ⟨t6, _ | ⟨t7, _ | ⟨t8, t⟩⟩⟩⟩⟩⟩⟩⟩ <;>
    simp only [List.length_cons, List.length_nil] at hlen <;> try omega
  have c1 := hnum t1 (by simp)
  have c2 := hnum t2 (by simp)
  have c3 := hnum t3 (by simp)
  have c4 := hnum t4 (by simp)
  have c5 := hnum t5 (by simp)
  have c6 := hnum t6 (by simp)
  have c7 := hnum t7 (by simp)
  have hcount : (wideDataFile.count ',') = 18 := by decide
  have hheader : (loadHeader.count ',') = 6 := by decide
  rcases hcontent with hc | hc
  · have := congrArg (List.count ',') hc
    rw [hcount] at this
    simp [List.intercalate, List.intersperse, List.count_append, List.count_cons, hheader,
      c1, c2, c3, c4, c5, c6, c7] at this
  · have := congrArg (List.count ',') hc
    rw [hcount] at this
    simp [List.intercalate, List.intersperse, List.count_append, List.count_cons, hheader,
      c1, c2, c3, c4, c5, c6, c7] at this

end MetricsSummary

/-- Witness for C6: the expected header followed by `10,1,0,2048,0,500000,0`. -/
theorem MetricsSummary.LoadFromFile_true_only_if_witness :
    ∃ content : List Char,
      some sevenDataFile = some content ∧
      (∃ (consumed rest : List Char) (v1 v2 v3 v4 v5 v6 v7 : Int),
        cString content = consumed ++ rest ∧
        ScanMatch (parseFormat loadFormat) (cString content) rest
          [v1, v2, v3, v4, v5, v6, v7]) ∧
      (∀ (rest : List Char) (v1 v2 v3 v4 v5 v6 v7 : Int),
        ScanMatch (parseFormat loadFormat) (cString content) rest
          [v1, v2, v3, v4, v5, v6, v7] →
        canonical (LoadFromFile CRuntime.wrapping (some sevenDataFile) zero).2
          = [CRuntime.wrapping.storeInt32 v1, CRuntime.wrapping.storeInt32 v2,
             CRuntime.wrapping.storeInt32 v3, CRuntime.wrapping.storeInt64 v4,
             CRuntime.wrapping.storeInt64 v5, CRuntime.wrapping.storeInt64 v6,
             CRuntime.wrapping.storeInt64 v7] ∧
        (fitsInt32 v1 ∧ fitsInt32 v2 ∧ fitsInt32 v3 ∧ fitsInt64 v4 ∧ fitsInt64 v5 ∧
          fitsInt64 v6 ∧ fitsInt64 v7 →
          canonical (LoadFromFile CRuntime.wrapping (some sevenDataFile) zero).2
            = [v1, v2, v3, v4, v5, v6, v7])) ∧
      tiered (LoadFromFile CRuntime.wrapping (some sevenDataFile) zero).2 = tiered zero :=
  MetricsSummary.LoadFromFile_true_only_if CRuntime.wrapping (some sevenDataFile) zero
    (congrArg Prod.fst MetricsSummary.LoadFromFile_sevenDataFile)

/-- Counterexample to C6 as stated: a file made of the expected header line
and a data line of thirteen comma-separated integers is not "the header line
followed by a data line of seven comma-separated integers", yet `LoadFromFile`
returns true on it. -/
theorem MetricsSummary.LoadFromFile_true_on_wide_data :
    (LoadFromFile CRuntime.wrapping (some wideDataFile) zero).1 = true ∧
    ¬ ∃ vals : List Int, SevenFieldFile wideDataFile vals :=
  ⟨congrArg Prod.fst MetricsSummary.LoadFromFile_wideDataFile,
   MetricsSummary.wideDataFile_not_sevenField⟩

/-- Witness for C7: a data line of two integers. -/
theorem MetricsSummary.LoadFromFile_failure_state_witness :
    (some shortDataFile = none →
      (LoadFromFile CRuntime.wrapping (some shortDataFile) zero).2 = zero) ∧
    ∀ content : List Char, some shortDataFile = some content →
      (∃ (fs1 : List Directive) (f : Directive) (fs2 : List Directive) (rest : List Char)
          (vals : List Int),
        parseFormat loadFormat = fs1 ++ f :: fs2 ∧
        ScanMatch fs1 (cString content) rest vals ∧ ScanStuck f rest) ∧
      (∀ (fs1 : List Directive) (f : Directive) (fs2 : List Directive) (rest : List Char)
          (vals : List Int),
        parseFormat loadFormat = fs1 ++ f :: fs2 →
        ScanMatch fs1 (cString content) rest vals → ScanStuck f rest →
        vals.length < 7 ∧
        (storedValues CRuntime.wrapping fs1 vals).length = vals.length ∧
        canonical (LoadFromFile CRuntime.wrapping (some shortDataFile) zero).2
          = storedValues CRuntime.wrapping fs1 vals ++ (canonical zero).drop vals.length ∧
        tiered (LoadFromFile CRuntime.wrapping (some shortDataFile) zero).2 = tiered zero ∧
        (vals = [] → (LoadFromFile CRuntime.wrapping (some shortDataFile) zero).2 = zero)) :=
  MetricsSummary.LoadFromFile_failure_state CRuntime.wrapping (some shortDataFile) zero
    (congrArg Prod.fst MetricsSummary.LoadFromFile_shortDataFile)

/-- Counterexample to C7 as stated: on the expected header followed by the
data line `1,2`, `LoadFromFile` returns false and yet has overwritten
`SuccessfulCompiles` and `FailingCompiles` of a fresh target with 1 and 2. -/
theorem MetricsSummary.LoadFromFile_partial_overwrite :
    (LoadFromFile CRuntime.wrapping (some shortDataFile) zero).1 = false ∧
    (LoadFromFile CRuntime.wrapping (some shortDataFile) zero).2.SuccessfulCompiles = 1 ∧
    (LoadFromFile CRuntime.wrapping (some shortDataFile) zero).2.FailingCompiles = 2 ∧
    (LoadFromFile CRuntime.wrapping (some shortDataFile) zero).2 ≠ zero := by
  rw [MetricsSummary.LoadFromFile_shortDataFile]
  decide

/-! ## The arena allocator: accounting -/

namespace Arena

/-- A call of `allocate` on an active arena succeeds when the host can supply a
page for the request, leaves the arena active, and adds one allocation and the
rounded size to the counters of its kind and to no other counter. -/
theorem allocate_ok (cfg : ArenaConfig) (a : Arena) (kind : CompMemKind) (size alignment : Nat)
    (hactive : a.state = ArenaState.Active)
    (hhost : cfg.hostSupplies (max cfg.defaultPageSize (roundUp size alignment)) = true) :
    ∃ (a1 : Arena) (blk : Block),
      allocate cfg a kind size alignment = Except.ok (a1, blk) ∧
      a1.state = ArenaState.Active ∧
      (∀ k, a1.count k = if k = kind then a.count k + 1 else a.count k) ∧
      (∀ k, a1.bytes k = if k = kind then a.bytes k + roundUp size alignment else a.bytes k) := by
  unfold allocate
  rw [hactive]
  cases hlast : a.pages.getLast? with
  | none =>
    simp only [PageManager.acquire, hhost, if_true]
    exact ⟨_, _, rfl, rfl, fun _ => rfl, fun _ => rfl⟩
  | some current =>
    by_cases hfit : roundUp size alignment ≤ current.capacity - current.cursor
    · simp only [hfit, if_true]
      exact ⟨_, _, rfl, rfl, fun _ => rfl, fun _ => rfl⟩
    · simp only [hfit, if_false, PageManager.acquire, hhost, if_true]
      exact ⟨_, _, rfl, rfl, fun _ => rfl, fun _ => rfl⟩

/-- `n` calls `allocate(kind, size)` on an active arena, the host supplying the
pages asked for: all succeed, the counters of `kind` grow by `n` allocations
and `n` rounded sizes, and the other counters keep their values. -/
theorem allocateN_ok (cfg : ArenaConfig) (kind : CompMemKind) (size : Nat)
    (hhost : cfg.hostSupplies (max cfg.defaultPageSize (roundUp size cfg.wordAlignment)) = true) :
    ∀ (n : Nat) (a : Arena), a.state = ArenaState.Active →
      ∃ a1 : Arena,
        allocateN cfg n kind size a = Except.ok a1 ∧ a1.state = ArenaState.Active ∧
        (∀ k, a1.count k = if k = kind then a.count k + n else a.count k) ∧
        (∀ k, a1.bytes k
          = if k = kind then a.bytes k + n * roundUp size cfg.wordAlignment else a.bytes k) := by
  intro n
  induction n with
  | zero =>
    intro a hactive
    exact ⟨a, rfl, hactive, by simp, by simp⟩
  | succ n ih =>
    intro a hactive
    obtain ⟨a1, blk, halloc, hactive1, hcount1, hbytes1⟩ :=
      allocate_ok cfg a kind size cfg.wordAlignment hactive hhost
    obtain ⟨a2, hrest, hactive2, hcount2, hbytes2⟩ := ih a1 hactive1
    refine ⟨a2, ?_, hactive2, ?_, ?_⟩
    · simp only [allocateN, List.replicate_succ, allocateAll, halloc]
      exact hrest
    · intro k
      rw [hcount2, hcount1]
      split <;> omega
    · intro k
      rw [hbytes2, hbytes1]
      split
      · rw [Nat.succ_mul]
        omega
      · rfl

end Arena

/-- C9: arena accounting.  For every kind `K`, size `S` and count `N`, after
`N` calls `allocate(K, S)` on an active arena (the host supplying the page
asked for), `snapshot()` reports for `K` `N` more allocations and
`N * roundUp(S)` more bytes than before, and the counters of every other kind
are unchanged; on a fresh arena, `count[K] = N` and `bytes[K] = N * roundUp(S)`.
The arena is the one described by the spec; only the kind list is in the
sources. -/
theorem Arena.allocate_accounting (cfg : ArenaConfig) (K : CompMemKind) (S N : Nat)
    (a0 : Arena) (hactive : a0.state = ArenaState.Active)
    (hhost : cfg.hostSupplies (max cfg.defaultPageSize (roundUp S cfg.wordAlignment)) = true) :
    ∃ (a : Arena) (snap : UsageSnapshot),
      Arena.allocateN cfg N K S a0 = Except.ok a ∧
      a.snapshot = Except.ok snap ∧
      snap.count K = a0.count K + N ∧
      snap.bytes K = a0.bytes K + N * roundUp S cfg.wordAlignment ∧
      (∀ k, k ≠ K → snap.count k = a0.count k ∧ snap.bytes k = a0.bytes k) ∧
      (a0 = Arena.fresh →
        snap.count K = N ∧ snap.bytes K = N * roundUp S cfg.wordAlignment ∧
        ∀ k, k ≠ K → snap.count k = 0 ∧ snap.bytes k = 0) := by
  obtain ⟨a, hall, hactive1, hcount, hbytes⟩ :=
    Arena.allocateN_ok cfg K S hhost N a0 hactive
  refine ⟨a, { count := a.count, bytes := a.bytes }, hall, ?_, ?_, ?_, ?_, ?_⟩
  · simp [Arena.snapshot, hactive1]
  · simp [hcount]
  · simp [hbytes]
  · intro k hk
    simp [hcount, hbytes, hk]
  · intro hfresh
    subst hfresh
    refine ⟨by simp [hcount, Arena.fresh], by simp [hbytes, Arena.fresh], ?_⟩
    intro k hk
    simp [hcount, hbytes, hk, Arena.fresh]

/-- Witness for C9: three calls `allocate(LSRA_Interval, 64)` on a fresh arena
with 8-byte words and 64 KiB pages: count 3 and 192 bytes. -/
theorem Arena.allocate_accounting_witness :
    ∃ (a : Arena) (snap : UsageSnapshot),
      Arena.allocateN ArenaConfig.sample 3 CompMemKind.LSRA_Interval 64 Arena.fresh
        = Except.ok a ∧
      a.snapshot = Except.ok snap ∧
      snap.count CompMemKind.LSRA_Interval = 3 ∧ snap.bytes CompMemKind.LSRA_Interval = 192 ∧
      (∀ k, k ≠ CompMemKind.LSRA_Interval → snap.count k = 0 ∧ snap.bytes k = 0) := by
  obtain ⟨a, snap, hall, hsnap, -, -, -, hfresh⟩ :=
    Arena.allocate_accounting ArenaConfig.sample CompMemKind.LSRA_Interval 64 3 Arena.fresh
      rfl (by decide)
  obtain ⟨hc, hb, hother⟩ := hfresh rfl
  exact ⟨a, snap, hall, hsnap, hc, by rw [hb]; decide, hother⟩

/-- The first end-to-end scenario of the spec: three `allocate(LSRA_Interval,
64)` and one `allocate(SSA, 512)` on a fresh arena give `LSRA_Interval`
count 3 and 192 bytes, `SSA` count 1 and 512 bytes, and nothing for `Generic`. -/
theorem Arena.scenario_one :
    ∃ a : Arena,
      Arena.allocateAll ArenaConfig.sample
          [(CompMemKind.LSRA_Interval, 64), (CompMemKind.LSRA_Interval, 64),
           (CompMemKind.LSRA_Interval, 64), (CompMemKind.SSA, 512)] Arena.fresh
        = Except.ok a ∧
      a.count CompMemKind.LSRA_Interval = 3 ∧ a.bytes CompMemKind.LSRA_Interval = 192 ∧
      a.count CompMemKind.SSA = 1 ∧ a.bytes CompMemKind.SSA = 512 ∧
      a.count CompMemKind.Generic = 0 ∧ a.bytes CompMemKind.Generic = 0 ∧
      a.pages.length = 1 :=
  ⟨_, rfl, by decide, by decide, by decide, by decide, by decide, by decide, by decide⟩

/-! ## The kind registry -/

set_option maxRecDepth 100000 in
theorem CompMemKind.names_nodup : (CompMemKind.all.map CompMemKind.name).Nodup := by
  decide

theorem CompMemKind.mem_all (k : CompMemKind) : k ∈ CompMemKind.all := by
  cases k <;> decide

/-- C10: the kind registry is a well-formed closed set.  The list enumerates
every kind, fifty-five in all, each once; the kind-to-name mapping has no name
occurring twice, so it is injective; the list contains the catch-all kinds
`Unknown` and `Generic`, and `ZeroInit` exactly once. -/
theorem CompMemKind.registry_well_formed :
    (∀ k : CompMemKind, k ∈ CompMemKind.all) ∧
    CompMemKind.all.Nodup ∧
    CompMemKind.all.length = 55 ∧
    (CompMemKind.all.map CompMemKind.name).Nodup ∧
    Function.Injective CompMemKind.name ∧
    CompMemKind.Unknown ∈ CompMemKind.all ∧
    CompMemKind.Generic ∈ CompMemKind.all ∧
    CompMemKind.Unknown.name = "Unknown" ∧
    CompMemKind.Generic.name = "Generic" ∧
    CompMemKind.all.count CompMemKind.ZeroInit = 1 ∧
    (CompMemKind.all.map CompMemKind.name).count "ZeroInit" = 1 := by
  have hnodup := CompMemKind.names_nodup
  refine ⟨CompMemKind.mem_all, hnodup.of_map _, rfl, hnodup, ?_, CompMemKind.mem_all _,
    CompMemKind.mem_all _, rfl, rfl, ?_, ?_⟩
  · intro k1 k2 h
    exact List.inj_on_of_nodup_map hnodup (CompMemKind.mem_all k1) (CompMemKind.mem_all k2) h
  · exact List.count_eq_one_of_mem (hnodup.of_map _) (CompMemKind.mem_all _)
  · exact List.count_eq_one_of_mem hnodup
      (List.mem_map_of_mem _ (CompMemKind.mem_all CompMemKind.ZeroInit))
